import Mathlib

/-
Verification of the Parallel-Replica Plan Splitter specification.

The splitter itself (plan tree, cut-point analyzer, plan rewriter, IN-subquery
materialization policy) is not present under src/ — only its stateless test
reference file `02967_parallel_replicas_joins_and_analyzer.reference` is.  The
definitions below are therefore modelled from the specification's own data
model and component design (sections 3, 4, 6), with the test reference file's
recorded plans and result rows embedded as concrete data where they decide a
claim.
-/

/-- Join kinds of the plan tree (spec section 3: Join kind Inner, Left, Right, Full). -/
inductive JoinKind where
  | inner
  | left
  | right
  | full
deriving DecidableEq

/-- Materialization policy tag for an IN-subquery set (spec section 3: Once or PerReplica). -/
inductive SetPolicy where
  | once
  | perReplica
deriving DecidableEq

/-- Modelled from the spec: the explicit immutable configuration value passed into
`split` (sections 6 and 9): whether IN-subqueries are allowed under distributed
execution, and the total number of replicas (local coordinator branch included). -/
structure Config where
  allowInSubquery : Bool
  replicas : Nat
deriving DecidableEq

/-- Modelled from the spec: the closed operator variant of the plan tree (section 3).
`scan` carries a table identity and the distributable flag; `filter` keeps rows whose
column differs from a literal; `expression` projects columns; `join` carries the join
kind, the key column of each side and the pad widths used for unmatched rows;
`aggregate` groups by one key column and sums one value column, with the `finalized`
flag distinguishing the partial form; `sort` carries the `global` flag; `setBuild`
filters its child by membership of one column in the first column of the inner
subquery plan's rows.  `mergeAggregate`, `mergeSort` and `fanOutReplica` are the
operators the rewriter introduces on the coordinator side (section 4.2). -/
inductive PlanNode where
  | scan (table : Nat) (distributable : Bool)
  | filter (col : Nat) (lit : Int) (child : PlanNode)
  | expression (cols : List Nat) (child : PlanNode)
  | join (kind : JoinKind) (kl kr lw rw : Nat) (lhs rhs : PlanNode)
  | aggregate (finalized : Bool) (key val : Nat) (child : PlanNode)
  | sort (global : Bool) (child : PlanNode)
  | setBuild (policy : SetPolicy) (col : Nat) (inner child : PlanNode)
  | mergeAggregate (child : PlanNode)
  | mergeSort (child : PlanNode)
  | fanOutReplica (plan : PlanNode) (replicas : Nat)
deriving DecidableEq

/-- A row is a list of integer column values. -/
abbrev Row := List Int

/-- Table environment: table identity to full table contents. -/
abbrev Env := Nat → List Row

/-- Partition assignment: table identity and replica index to that replica's slice
of the table (section 4.2: the placeholder partition-assignment slot filled at
dispatch time). -/
abbrev PartAssign := Nat → Nat → List Row

/-- A partition assignment is valid for `R` replicas when, for every table, the
slices handed to the replicas are a disjoint and exhaustive partition of the
table: their concatenation is a permutation of the full contents (glossary:
Partition). -/
def validPart (env : Env) (part : PartAssign) (R : Nat) : Prop :=
  ∀ t, ((List.range R).flatMap (fun i => part t i)).Perm (env t)

/-- Sorting rows: total order is the lexicographic order on the full row, so the
requested total order is antisymmetric (section 3: Sort, sort keys). -/
def sortRows (rows : List Row) : List Row :=
  List.insertionSort (· ≤ ·) rows

/-- Key column of a row. -/
def keyOf (k : Nat) (r : Row) : Int := r.getD k 0

/-- Value column of a row. -/
def valOf (v : Nat) (r : Row) : Int := r.getD v 0

/-- Sum of the value column over the rows whose key column equals `key`. -/
def sumFor (k v : Nat) (rows : List Row) (key : Int) : Int :=
  ((rows.filter (fun r => keyOf k r == key)).map (valOf v)).sum

/-- The distinct keys occurring in the rows, in increasing order. -/
def keysOf (k : Nat) (rows : List Row) : List Int :=
  (rows.map (keyOf k)).toFinset.sort (· ≤ ·)

/-- Aggregation of rows: per distinct grouping key (in increasing key order) the sum
of the value column.  This canonical association list is the per-group state of an
Aggregate node (section 3: grouping keys, aggregate functions, finalized flag). -/
def aggEval (k v : Nat) (rows : List Row) : List (Int × Int) :=
  (keysOf k rows).map (fun key => (key, sumFor k v rows key))

/-- Encoding of aggregation states as rows: key then accumulated value. -/
def encState (st : List (Int × Int)) : List Row :=
  st.map (fun p => [p.1, p.2])

/-- Accumulated value of a state for a key, zero when the key is absent. -/
def lookup0 (a : List (Int × Int)) (key : Int) : Int :=
  ((a.filter (fun p => p.1 == key)).map Prod.snd).sum

/-- Combining two per-partition aggregation states: per key in either state, the sum
of the two accumulated values (section 4.2: MergeAggregate combines partial states
across branches). -/
def combine (a b : List (Int × Int)) : List (Int × Int) :=
  (((a.map Prod.fst).toFinset ∪ (b.map Prod.fst).toFinset).sort (· ≤ ·)).map
    (fun key => (key, lookup0 a key + lookup0 b key))

/-- Folding `combine` over a list of per-partition states. -/
def foldCombine (sts : List (List (Int × Int))) : List (Int × Int) :=
  sts.foldr combine []

/-- Row-level join semantics (section 3).  Keys are compared between column `kl` of
the left row and column `kr` of the right row; unmatched preserved-side rows are
padded with `lw` or `rw` zero columns for the absent side. -/
def joinRows (kind : JoinKind) (kl kr lw rw : Nat) (L R : List Row) : List Row :=
  match kind with
  | .inner =>
      L.flatMap (fun a => (R.filter (fun b => keyOf kl a == keyOf kr b)).map (fun b => a ++ b))
  | .left =>
      L.flatMap (fun a =>
        let ms := R.filter (fun b => keyOf kl a == keyOf kr b)
        if ms.isEmpty then [a ++ List.replicate rw 0] else ms.map (fun b => a ++ b))
  | .right =>
      R.flatMap (fun b =>
        let ms := L.filter (fun a => keyOf kl a == keyOf kr b)
        if ms.isEmpty then [List.replicate lw 0 ++ b] else ms.map (fun a => a ++ b))
  | .full =>
      (L.flatMap (fun a =>
        let ms := R.filter (fun b => keyOf kl a == keyOf kr b)
        if ms.isEmpty then [a ++ List.replicate rw 0] else ms.map (fun b => a ++ b))) ++
      ((R.filter (fun b => (L.filter (fun a => keyOf kl a == keyOf kr b)).isEmpty)).map
        (fun b => List.replicate lw 0 ++ b))

/-- Modelled from the spec: evaluation of a plan by replica `i` against partition
assignment `part`.  Distributable scans read the replica's slice, broadcast scans
the full table (section 3).  A SetBuild's inner subquery plan always runs over the
full, unpartitioned tables (section 4.3).  A FanOutReplica node drives one branch
per replica and interleaves their outputs (section 5); MergeAggregate combines the
encoded partial states; MergeSort merges the branch streams into one total order. -/
def evalR (env : Env) (part : PartAssign) (i : Nat) : PlanNode → List Row
  | .scan t d => if d then part t i else env t
  | .filter c lit ch => (evalR env part i ch).filter (fun r => !(r.getD c 0 == lit))
  | .expression cols ch => (evalR env part i ch).map (fun r => cols.map (fun c => r.getD c 0))
  | .join kind kl kr lw rw l r =>
      joinRows kind kl kr lw rw (evalR env part i l) (evalR env part i r)
  | .aggregate _ k v ch => encState (aggEval k v (evalR env part i ch))
  | .sort _ ch => sortRows (evalR env part i ch)
  | .setBuild _ c inner ch =>
      (evalR env part i ch).filter (fun r =>
        ((evalR env (fun t _ => env t) 0 inner).map (fun s => s.getD 0 0)).contains (r.getD c 0))
  | .mergeAggregate ch => encState (aggEval 0 1 (evalR env part i ch))
  | .mergeSort ch => sortRows (evalR env part i ch)
  | .fanOutReplica plan reps => (List.range reps).flatMap (fun j => evalR env part j plan)

/-- Non-distributed single-node evaluation: every scan reads the full table. -/
def evalS (env : Env) (p : PlanNode) : List Row :=
  evalR env (fun t _ => env t) 0 p

/-- Coordinator-side evaluation of a rewritten plan: the coordinator owns replica 0
and the embedded FanOutReplica nodes fan out to all replicas. -/
def evalC (env : Env) (part : PartAssign) (p : PlanNode) : List Row :=
  evalR env part 0 p

/-- Modelled from the spec: per-operator classification as merge-requiring in
isolation (section 4.1): a finalized Aggregate, a global Sort, a Right or Full
Join, and a SetBuild when the configuration denies IN-subqueries under distributed
execution.  `classify` is unit-testable per operator, independent of the whole-tree
traversal (section 6). -/
def classify (cfg : Config) : PlanNode → Bool
  | .aggregate fin _ _ _ => fin
  | .sort g _ => g
  | .join kind _ _ _ _ _ _ => kind == .right || kind == .full
  | .setBuild _ _ _ _ => !cfg.allowInSubquery
  | _ => false

/-- Modelled from the spec: the post-order subtree flag of the cut-point analyzer
(section 4.1): whether any node of the subtree is merge-requiring; a parent
inherits the flag from any child.  A SetBuild also inherits it from its inner
subquery plan, which is never split. -/
def hasMergeReq (cfg : Config) : PlanNode → Bool
  | .scan _ _ => false
  | .filter _ _ ch => hasMergeReq cfg ch
  | .expression _ ch => hasMergeReq cfg ch
  | .join kind _ _ _ _ l r =>
      kind == .right || kind == .full || hasMergeReq cfg l || hasMergeReq cfg r
  | .aggregate fin _ _ ch => fin || hasMergeReq cfg ch
  | .sort g ch => g || hasMergeReq cfg ch
  | .setBuild _ _ inner ch => !cfg.allowInSubquery || hasMergeReq cfg inner || hasMergeReq cfg ch
  | .mergeAggregate ch => hasMergeReq cfg ch
  | .mergeSort ch => hasMergeReq cfg ch
  | .fanOutReplica plan _ => hasMergeReq cfg plan

/-- Modelled from the spec: the IN-subquery materialization policy decision
(section 4.3): when the inner plan contains a distributable scan, Once is
disallowed and the node is forced to PerReplica. -/
def hasDistScan : PlanNode → Bool
  | .scan _ d => d
  | .filter _ _ ch => hasDistScan ch
  | .expression _ ch => hasDistScan ch
  | .join _ _ _ _ _ l r => hasDistScan l || hasDistScan r
  | .aggregate _ _ _ ch => hasDistScan ch
  | .sort _ ch => hasDistScan ch
  | .setBuild _ _ inner ch => hasDistScan inner || hasDistScan ch
  | .mergeAggregate ch => hasDistScan ch
  | .mergeSort ch => hasDistScan ch
  | .fanOutReplica plan _ => hasDistScan plan

/-- Modelled from the spec: `decide_set_policy(node, config)` (section 6): Once
unless the SetBuild's inner plan contains a distributable scan, in which case the
node is forced to PerReplica (section 4.3). -/
def decide_set_policy (_ : Config) : PlanNode → SetPolicy
  | .setBuild _ _ inner _ => if hasDistScan inner then .perReplica else .once
  | _ => .once

/-- Reported reason for the cut chosen by `split` (section 6: cut_reason). -/
inductive CutReason where
  | fullyDistributable
  | aggregateSplit
  | sortSplit
  | joinBarrier
  | subqueryBarrier
  | policyConflict
deriving DecidableEq

/-- Modelled from the spec: the plan rewriter (section 4.2).  A subtree with no
merge-requiring node is pushed whole to the replicas behind a FanOutReplica
boundary.  Above merge-requiring nodes the plan is structurally unchanged; a
finalized Aggregate whose input is free is split into a pushed partial form and a
MergeAggregate directly above the fan-out; a global Sort whose input is free is
pushed as a local Sort with a MergeSort above the fan-out; a Join with a
merge-requiring subtree is never pushed and never split across the cut, its inputs
are rewritten independently; a merge-requiring SetBuild stays on the coordinator
with its inner plan intact. -/
def rewrite (cfg : Config) : PlanNode → PlanNode
  | n@(.scan _ _) => if hasMergeReq cfg n then n else .fanOutReplica n cfg.replicas
  | n@(.filter c lit ch) =>
      if hasMergeReq cfg n then .filter c lit (rewrite cfg ch) else .fanOutReplica n cfg.replicas
  | n@(.expression cols ch) =>
      if hasMergeReq cfg n then .expression cols (rewrite cfg ch)
      else .fanOutReplica n cfg.replicas
  | n@(.join kind kl kr lw rw l r) =>
      if hasMergeReq cfg n then .join kind kl kr lw rw (rewrite cfg l) (rewrite cfg r)
      else .fanOutReplica n cfg.replicas
  | n@(.aggregate fin k v ch) =>
      if hasMergeReq cfg n then
        if fin && !hasMergeReq cfg ch then
          .mergeAggregate (.fanOutReplica (.aggregate false k v ch) cfg.replicas)
        else .aggregate fin k v (rewrite cfg ch)
      else .fanOutReplica n cfg.replicas
  | n@(.sort g ch) =>
      if hasMergeReq cfg n then
        if g && !hasMergeReq cfg ch then
          .mergeSort (.fanOutReplica (.sort true ch) cfg.replicas)
        else .sort g (rewrite cfg ch)
      else .fanOutReplica n cfg.replicas
  | n@(.setBuild pol c inner ch) =>
      if hasMergeReq cfg n then .setBuild pol c inner (rewrite cfg ch)
      else .fanOutReplica n cfg.replicas
  | n@(.mergeAggregate _) => n
  | n@(.mergeSort _) => n
  | n@(.fanOutReplica _ _) => n

/-- Modelled from the spec: the reason reported for the topmost cut (section 6). -/
def cutReason (cfg : Config) : PlanNode → CutReason
  | n@(.filter _ _ ch) =>
      if hasMergeReq cfg n then cutReason cfg ch else .fullyDistributable
  | n@(.expression _ ch) =>
      if hasMergeReq cfg n then cutReason cfg ch else .fullyDistributable
  | n@(.join _ _ _ _ _ _ _) =>
      if hasMergeReq cfg n then .joinBarrier else .fullyDistributable
  | n@(.aggregate fin _ _ ch) =>
      if hasMergeReq cfg n then
        if fin && !hasMergeReq cfg ch then .aggregateSplit else cutReason cfg ch
      else .fullyDistributable
  | n@(.sort g ch) =>
      if hasMergeReq cfg n then
        if g && !hasMergeReq cfg ch then .sortSplit else cutReason cfg ch
      else .fullyDistributable
  | n@(.setBuild _ _ _ ch) =>
      if hasMergeReq cfg n then
        if !cfg.allowInSubquery then .policyConflict
        else if hasMergeReq cfg ch then cutReason cfg ch else .subqueryBarrier
      else .fullyDistributable
  | _ => .fullyDistributable

/-- Modelled from the spec: `split(plan, config)` (section 6) returns the rewritten
two-tier plan (the coordinator subplan with the pushed replica subplans embedded
in its FanOutReplica nodes) together with the cut reason. -/
def split (cfg : Config) (p : PlanNode) : PlanNode × CutReason :=
  (rewrite cfg p, cutReason cfg p)

/-- The replica subplans pushed behind the FanOutReplica boundaries of a rewritten
plan, in left-to-right order. -/
def pushedPlans : PlanNode → List PlanNode
  | .scan _ _ => []
  | .filter _ _ ch => pushedPlans ch
  | .expression _ ch => pushedPlans ch
  | .join _ _ _ _ _ l r => pushedPlans l ++ pushedPlans r
  | .aggregate _ _ _ ch => pushedPlans ch
  | .sort _ ch => pushedPlans ch
  | .setBuild _ _ inner ch => pushedPlans inner ++ pushedPlans ch
  | .mergeAggregate ch => pushedPlans ch
  | .mergeSort ch => pushedPlans ch
  | .fanOutReplica plan _ => [plan]

/-- Number of replica/coordinator fan-out boundaries of a rewritten plan. -/
def countFanOut (p : PlanNode) : Nat := (pushedPlans p).length

/-- Input well-formedness: a tree handed to `split` by the upstream compiler
contains none of the operators the rewriter introduces. -/
def inputOk : PlanNode → Bool
  | .scan _ _ => true
  | .filter _ _ ch => inputOk ch
  | .expression _ ch => inputOk ch
  | .join _ _ _ _ _ l r => inputOk l && inputOk r
  | .aggregate _ _ _ ch => inputOk ch
  | .sort _ ch => inputOk ch
  | .setBuild _ _ inner ch => inputOk inner && inputOk ch
  | .mergeAggregate _ => false
  | .mergeSort _ => false
  | .fanOutReplica _ _ => false

/-- Plans built only from Scan, Filter, Expression and Inner or Left Join
(section 8, first testable property). -/
def onlyBasic : PlanNode → Bool
  | .scan _ _ => true
  | .filter _ _ ch => onlyBasic ch
  | .expression _ ch => onlyBasic ch
  | .join kind _ _ _ _ l r => (kind == .inner || kind == .left) && onlyBasic l && onlyBasic r
  | _ => false

/-- Number of Right or Full Join nodes anywhere in a plan. -/
def countRF : PlanNode → Nat
  | .scan _ _ => 0
  | .filter _ _ ch => countRF ch
  | .expression _ ch => countRF ch
  | .join kind _ _ _ _ l r =>
      (if kind == .right || kind == .full then 1 else 0) + countRF l + countRF r
  | .aggregate _ _ _ ch => countRF ch
  | .sort _ ch => countRF ch
  | .setBuild _ _ inner ch => countRF inner + countRF ch
  | .mergeAggregate ch => countRF ch
  | .mergeSort ch => countRF ch
  | .fanOutReplica plan _ => countRF plan

/-- Number of Right or Full Join nodes on the coordinator side of a rewritten plan,
that is, outside every FanOutReplica boundary. -/
def countRFCoord : PlanNode → Nat
  | .scan _ _ => 0
  | .filter _ _ ch => countRFCoord ch
  | .expression _ ch => countRFCoord ch
  | .join kind _ _ _ _ l r =>
      (if kind == .right || kind == .full then 1 else 0) + countRFCoord l + countRFCoord r
  | .aggregate _ _ _ ch => countRFCoord ch
  | .sort _ ch => countRFCoord ch
  | .setBuild _ _ inner ch => countRFCoord inner + countRFCoord ch
  | .mergeAggregate ch => countRFCoord ch
  | .mergeSort ch => countRFCoord ch
  | .fanOutReplica _ _ => 0

/-- Whether a plan contains a SetBuild node. -/
def hasSetBuild : PlanNode → Bool
  | .scan _ _ => false
  | .filter _ _ ch => hasSetBuild ch
  | .expression _ ch => hasSetBuild ch
  | .join _ _ _ _ _ l r => hasSetBuild l || hasSetBuild r
  | .aggregate _ _ _ ch => hasSetBuild ch
  | .sort _ ch => hasSetBuild ch
  | .setBuild _ _ _ _ => true
  | .mergeAggregate ch => hasSetBuild ch
  | .mergeSort ch => hasSetBuild ch
  | .fanOutReplica plan _ => hasSetBuild plan

/-- Number of merge operators (MergeAggregate or MergeSort) on the coordinator side
of a rewritten plan, outside every FanOutReplica boundary. -/
def coordMergeCount : PlanNode → Nat
  | .scan _ _ => 0
  | .filter _ _ ch => coordMergeCount ch
  | .expression _ ch => coordMergeCount ch
  | .join _ _ _ _ _ l r => coordMergeCount l + coordMergeCount r
  | .aggregate _ _ _ ch => coordMergeCount ch
  | .sort _ ch => coordMergeCount ch
  | .setBuild _ _ inner ch => coordMergeCount inner + coordMergeCount ch
  | .mergeAggregate ch => 1 + coordMergeCount ch
  | .mergeSort ch => 1 + coordMergeCount ch
  | .fanOutReplica _ _ => 0

/-- Distribution safety of a subtree pushed whole behind a fan-out boundary: the
partition-bearing spine ends in a distributable scan, every Join on the spine is
Inner or Left with the distributable side on the left and a right input free of
distributable scans (the joined side is executed in broadcast mode, as the test
reference file's comment states: the JOIN is executed in GLOBAL mode), and no
aggregation or rewriter-introduced operator lies below the boundary. -/
def distSafe : PlanNode → Bool
  | .scan _ d => d
  | .filter _ _ ch => distSafe ch
  | .expression _ ch => distSafe ch
  | .join kind _ _ _ _ l r =>
      (kind == .inner || kind == .left) && distSafe l && !hasDistScan r
  | .aggregate _ _ _ _ => false
  | .sort _ ch => distSafe ch
  | .setBuild _ _ _ ch => distSafe ch
  | .mergeAggregate _ => false
  | .mergeSort _ => false
  | .fanOutReplica _ _ => false

/-- Distribution safety of a whole input plan under a configuration: every subtree
the rewriter pushes behind a fan-out boundary (including the input of a split
Aggregate or split global Sort) is distribution safe. -/
def safeSplit (cfg : Config) : PlanNode → Bool
  | n@(.scan _ _) => if hasMergeReq cfg n then false else distSafe n
  | n@(.filter _ _ ch) => if hasMergeReq cfg n then safeSplit cfg ch else distSafe n
  | n@(.expression _ ch) => if hasMergeReq cfg n then safeSplit cfg ch else distSafe n
  | n@(.join _ _ _ _ _ l r) =>
      if hasMergeReq cfg n then safeSplit cfg l && safeSplit cfg r else distSafe n
  | n@(.aggregate fin _ _ ch) =>
      if hasMergeReq cfg n then
        if fin && !hasMergeReq cfg ch then distSafe ch else safeSplit cfg ch
      else distSafe n
  | n@(.sort g ch) =>
      if hasMergeReq cfg n then
        if g && !hasMergeReq cfg ch then distSafe ch else safeSplit cfg ch
      else distSafe n
  | n@(.setBuild _ _ _ ch) => if hasMergeReq cfg n then safeSplit cfg ch else distSafe n
  | .mergeAggregate _ => false
  | .mergeSort _ => false
  | .fanOutReplica _ _ => false

/-- Whether no Join of the plan has a merge-requiring node in its subtree (itself
included); under this condition the merge-requiring frontier is a single spine and
the rewriter produces a single fan-out boundary. -/
def noJoinMR (cfg : Config) : PlanNode → Bool
  | .scan _ _ => true
  | .filter _ _ ch => noJoinMR cfg ch
  | .expression _ ch => noJoinMR cfg ch
  | n@(.join _ _ _ _ _ _ _) => !hasMergeReq cfg n
  | .aggregate _ _ _ ch => noJoinMR cfg ch
  | .sort _ ch => noJoinMR cfg ch
  | .setBuild _ _ _ ch => noJoinMR cfg ch
  | .mergeAggregate ch => noJoinMR cfg ch
  | .mergeSort ch => noJoinMR cfg ch
  | .fanOutReplica plan _ => noJoinMR cfg plan

/-- Whether a rewritten plan has the split-Aggregate shape claimed for finalized
Aggregate roots: a MergeAggregate directly above a FanOutReplica whose pushed plan
is a non-finalized Aggregate. -/
def isAggSplit : PlanNode → Bool
  | .mergeAggregate (.fanOutReplica (.aggregate false _ _ _) _) => true
  | _ => false

/-- Whether the root of a plan is a global Sort, that is, a single total order over
the whole result is requested (section 3). -/
def isGlobalSortRoot : PlanNode → Bool
  | .sort true _ => true
  | _ => false

/-- Structural equality of plan trees, used to state that repeated calls of `split`
return structurally identical outputs. -/
def planBEq : PlanNode → PlanNode → Bool
  | .scan t d, .scan t' d' => t == t' && d == d'
  | .filter c lit ch, .filter c' lit' ch' => c == c' && lit == lit' && planBEq ch ch'
  | .expression cols ch, .expression cols' ch' => cols == cols' && planBEq ch ch'
  | .join k kl kr lw rw l r, .join k' kl' kr' lw' rw' l' r' =>
      k == k' && kl == kl' && kr == kr' && lw == lw' && rw == rw' &&
      planBEq l l' && planBEq r r'
  | .aggregate f k v ch, .aggregate f' k' v' ch' =>
      f == f' && k == k' && v == v' && planBEq ch ch'
  | .sort g ch, .sort g' ch' => g == g' && planBEq ch ch'
  | .setBuild pol c inner ch, .setBuild pol' c' inner' ch' =>
      pol == pol' && c == c' && planBEq inner inner' && planBEq ch ch'
  | .mergeAggregate ch, .mergeAggregate ch' => planBEq ch ch'
  | .mergeSort ch, .mergeSort ch' => planBEq ch ch'
  | .fanOutReplica p reps, .fanOutReplica p' reps' => planBEq p p' && reps == reps'
  | _, _ => false

/-- Row blocks of the nine result sets recorded in the test reference file under parallel_replicas_prefer_local_join = 0 (lines 6-20, 46-60, 96-97, 135-149, 188-202, 245-259, 291-305, 342-356 and 399-413). -/
def resultsLocalJoin0 : List (List Row) :=
  [[[0, 0, 0, 0, 0, 0],
      [1, 1, 0, 0, 0, 0],
      [3, 3, 0, 0, 0, 0],
      [4, 4, 0, 0, 0, 0],
      [5, 5, 0, 0, 0, 0],
      [6, 6, 6, 6, 0, 0],
      [7, 7, 0, 0, 0, 0],
      [8, 8, 8, 8, 0, 0],
      [9, 9, 0, 0, 0, 0],
      [10, 10, 10, 10, 0, 0],
      [11, 11, 0, 0, 0, 0],
      [12, 12, 12, 12, 12, 12],
      [13, 13, 0, 0, 0, 0],
      [14, 14, 14, 14, 0, 0],
      [15, 15, 0, 0, 0, 0]],
   [[0, 0, 0, 0, 0, 0],
      [1, 1, 0, 0, 0, 0],
      [3, 3, 0, 0, 0, 0],
      [4, 4, 0, 0, 0, 0],
      [5, 5, 0, 0, 0, 0],
      [6, 6, 6, 6, 0, 0],
      [7, 7, 0, 0, 0, 0],
      [8, 8, 8, 8, 0, 0],
      [9, 9, 0, 0, 0, 0],
      [10, 10, 10, 10, 0, 0],
      [11, 11, 0, 0, 0, 0],
      [12, 12, 12, 12, 12, 12],
      [13, 13, 0, 0, 0, 0],
      [14, 14, 14, 14, 0, 0],
      [15, 15, 0, 0, 0, 0]],
   [[54, 54, 50, 50, 12, 12, 0],
      [64, 64, 0, 0, 0, 0, 1]],
   [[0, 0, 0, 0, 0, 0],
      [1, 1, 0, 0, 0, 0],
      [3, 3, 0, 0, 0, 0],
      [4, 4, 0, 0, 0, 0],
      [5, 5, 0, 0, 0, 0],
      [6, 6, 6, 6, 0, 0],
      [7, 7, 0, 0, 0, 0],
      [8, 8, 8, 8, 0, 0],
      [9, 9, 0, 0, 0, 0],
      [10, 10, 10, 10, 0, 0],
      [11, 11, 0, 0, 0, 0],
      [12, 12, 12, 12, 12, 12],
      [13, 13, 0, 0, 0, 0],
      [14, 14, 14, 14, 0, 0],
      [15, 15, 0, 0, 0, 0]],
   [[0, 0, 0, 0, 0, 0],
      [1, 1, 0, 0, 0, 0],
      [3, 3, 0, 0, 0, 0],
      [4, 4, 0, 0, 0, 0],
      [5, 5, 0, 0, 0, 0],
      [6, 6, 6, 6, 0, 0],
      [7, 7, 0, 0, 0, 0],
      [8, 8, 8, 8, 0, 0],
      [9, 9, 0, 0, 0, 0],
      [10, 10, 10, 10, 0, 0],
      [11, 11, 0, 0, 0, 0],
      [12, 12, 12, 12, 12, 12],
      [13, 13, 0, 0, 0, 0],
      [14, 14, 14, 14, 0, 0],
      [15, 15, 0, 0, 0, 0]],
   [[0, 0, 0, 0, 0, 0],
      [1, 1, 0, 0, 0, 0],
      [3, 3, 0, 0, 0, 0],
      [4, 4, 0, 0, 0, 0],
      [5, 5, 0, 0, 0, 0],
      [6, 6, 6, 6, 0, 0],
      [7, 7, 0, 0, 0, 0],
      [8, 8, 8, 8, 0, 0],
      [9, 9, 0, 0, 0, 0],
      [10, 10, 10, 10, 0, 0],
      [11, 11, 0, 0, 0, 0],
      [12, 12, 12, 12, 12, 12],
      [13, 13, 0, 0, 0, 0],
      [14, 14, 14, 14, 0, 0],
      [15, 15, 0, 0, 0, 0]],
   [[0, 0, 0, 0, 0, 0],
      [0, 0, 1, 1, 0, 0],
      [0, 0, 3, 3, 0, 0],
      [0, 0, 4, 4, 0, 0],
      [0, 0, 5, 5, 0, 0],
      [0, 0, 6, 6, 6, 6],
      [0, 0, 7, 7, 0, 0],
      [0, 0, 8, 8, 8, 8],
      [0, 0, 9, 9, 0, 0],
      [0, 0, 10, 10, 10, 10],
      [0, 0, 11, 11, 0, 0],
      [12, 12, 12, 12, 12, 12],
      [0, 0, 13, 13, 0, 0],
      [0, 0, 14, 14, 14, 14],
      [0, 0, 15, 15, 0, 0]],
   [[0, 0, 0, 0, 0, 0],
      [1, 1, 0, 0, 0, 0],
      [3, 3, 0, 0, 0, 0],
      [4, 4, 0, 0, 0, 0],
      [5, 5, 0, 0, 0, 0],
      [6, 6, 6, 6, 0, 0],
      [7, 7, 0, 0, 0, 0],
      [8, 8, 8, 8, 0, 0],
      [9, 9, 0, 0, 0, 0],
      [10, 10, 10, 10, 0, 0],
      [11, 11, 0, 0, 0, 0],
      [12, 12, 12, 12, 12, 12],
      [13, 13, 0, 0, 0, 0],
      [14, 14, 14, 14, 0, 0],
      [15, 15, 0, 0, 0, 0]],
   [[0, 0, 0, 0, 0, 0],
      [1, 1, 0, 0, 0, 0],
      [3, 3, 0, 0, 0, 0],
      [4, 4, 0, 0, 0, 0],
      [5, 5, 0, 0, 0, 0],
      [6, 6, 6, 6, 0, 0],
      [7, 7, 0, 0, 0, 0],
      [8, 8, 8, 8, 0, 0],
      [9, 9, 0, 0, 0, 0],
      [10, 10, 10, 10, 0, 0],
      [11, 11, 0, 0, 0, 0],
      [12, 12, 12, 12, 12, 12],
      [13, 13, 0, 0, 0, 0],
      [14, 14, 14, 14, 0, 0],
      [15, 15, 0, 0, 0, 0]]]

/-- Row blocks of the same nine queries recorded under parallel_replicas_prefer_local_join = 1 (lines 454-468, 496-510, 548-549, 589-603, 643-657, 700-714, 748-762, 800-814 and 859-873). -/
def resultsLocalJoin1 : List (List Row) :=
  [[[0, 0, 0, 0, 0, 0],
      [1, 1, 0, 0, 0, 0],
      [3, 3, 0, 0, 0, 0],
      [4, 4, 0, 0, 0, 0],
      [5, 5, 0, 0, 0, 0],
      [6, 6, 6, 6, 0, 0],
      [7, 7, 0, 0, 0, 0],
      [8, 8, 8, 8, 0, 0],
      [9, 9, 0, 0, 0, 0],
      [10, 10, 10, 10, 0, 0],
      [11, 11, 0, 0, 0, 0],
      [12, 12, 12, 12, 12, 12],
      [13, 13, 0, 0, 0, 0],
      [14, 14, 14, 14, 0, 0],
      [15, 15, 0, 0, 0, 0]],
   [[0, 0, 0, 0, 0, 0],
      [1, 1, 0, 0, 0, 0],
      [3, 3, 0, 0, 0, 0],
      [4, 4, 0, 0, 0, 0],
      [5, 5, 0, 0, 0, 0],
      [6, 6, 6, 6, 0, 0],
      [7, 7, 0, 0, 0, 0],
      [8, 8, 8, 8, 0, 0],
      [9, 9, 0, 0, 0, 0],
      [10, 10, 10, 10, 0, 0],
      [11, 11, 0, 0, 0, 0],
      [12, 12, 12, 12, 12, 12],
      [13, 13, 0, 0, 0, 0],
      [14, 14, 14, 14, 0, 0],
      [15, 15, 0, 0, 0, 0]],
   [[54, 54, 50, 50, 12, 12, 0],
      [64, 64, 0, 0, 0, 0, 1]],
   [[0, 0, 0, 0, 0, 0],
      [1, 1, 0, 0, 0, 0],
      [3, 3, 0, 0, 0, 0],
      [4, 4, 0, 0, 0, 0],
      [5, 5, 0, 0, 0, 0],
      [6, 6, 6, 6, 0, 0],
      [7, 7, 0, 0, 0, 0],
      [8, 8, 8, 8, 0, 0],
      [9, 9, 0, 0, 0, 0],
      [10, 10, 10, 10, 0, 0],
      [11, 11, 0, 0, 0, 0],
      [12, 12, 12, 12, 12, 12],
      [13, 13, 0, 0, 0, 0],
      [14, 14, 14, 14, 0, 0],
      [15, 15, 0, 0, 0, 0]],
   [[0, 0, 0, 0, 0, 0],
      [1, 1, 0, 0, 0, 0],
      [3, 3, 0, 0, 0, 0],
      [4, 4, 0, 0, 0, 0],
      [5, 5, 0, 0, 0, 0],
      [6, 6, 6, 6, 0, 0],
      [7, 7, 0, 0, 0, 0],
      [8, 8, 8, 8, 0, 0],
      [9, 9, 0, 0, 0, 0],
      [10, 10, 10, 10, 0, 0],
      [11, 11, 0, 0, 0, 0],
      [12, 12, 12, 12, 12, 12],
      [13, 13, 0, 0, 0, 0],
      [14, 14, 14, 14, 0, 0],
      [15, 15, 0, 0, 0, 0]],
   [[0, 0, 0, 0, 0, 0],
      [1, 1, 0, 0, 0, 0],
      [3, 3, 0, 0, 0, 0],
      [4, 4, 0, 0, 0, 0],
      [5, 5, 0, 0, 0, 0],
      [6, 6, 6, 6, 0, 0],
      [7, 7, 0, 0, 0, 0],
      [8, 8, 8, 8, 0, 0],
      [9, 9, 0, 0, 0, 0],
      [10, 10, 10, 10, 0, 0],
      [11, 11, 0, 0, 0, 0],
      [12, 12, 12, 12, 12, 12],
      [13, 13, 0, 0, 0, 0],
      [14, 14, 14, 14, 0, 0],
      [15, 15, 0, 0, 0, 0]],
   [[0, 0, 0, 0, 0, 0],
      [0, 0, 1, 1, 0, 0],
      [0, 0, 3, 3, 0, 0],
      [0, 0, 4, 4, 0, 0],
      [0, 0, 5, 5, 0, 0],
      [0, 0, 6, 6, 6, 6],
      [0, 0, 7, 7, 0, 0],
      [0, 0, 8, 8, 8, 8],
      [0, 0, 9, 9, 0, 0],
      [0, 0, 10, 10, 10, 10],
      [0, 0, 11, 11, 0, 0],
      [12, 12, 12, 12, 12, 12],
      [0, 0, 13, 13, 0, 0],
      [0, 0, 14, 14, 14, 14],
      [0, 0, 15, 15, 0, 0]],
   [[0, 0, 0, 0, 0, 0],
      [1, 1, 0, 0, 0, 0],
      [3, 3, 0, 0, 0, 0],
      [4, 4, 0, 0, 0, 0],
      [5, 5, 0, 0, 0, 0],
      [6, 6, 6, 6, 0, 0],
      [7, 7, 0, 0, 0, 0],
      [8, 8, 8, 8, 0, 0],
      [9, 9, 0, 0, 0, 0],
      [10, 10, 10, 10, 0, 0],
      [11, 11, 0, 0, 0, 0],
      [12, 12, 12, 12, 12, 12],
      [13, 13, 0, 0, 0, 0],
      [14, 14, 14, 14, 0, 0],
      [15, 15, 0, 0, 0, 0]],
   [[0, 0, 0, 0, 0, 0],
      [1, 1, 0, 0, 0, 0],
      [3, 3, 0, 0, 0, 0],
      [4, 4, 0, 0, 0, 0],
      [5, 5, 0, 0, 0, 0],
      [6, 6, 6, 6, 0, 0],
      [7, 7, 0, 0, 0, 0],
      [8, 8, 8, 8, 0, 0],
      [9, 9, 0, 0, 0, 0],
      [10, 10, 10, 10, 0, 0],
      [11, 11, 0, 0, 0, 0],
      [12, 12, 12, 12, 12, 12],
      [13, 13, 0, 0, 0, 0],
      [14, 14, 14, 14, 0, 0],
      [15, 15, 0, 0, 0, 0]]]

/-- Standard configuration: IN-subqueries allowed, two replicas. -/
def cfgStd : Config := { allowInSubquery := true, replicas := 2 }

/-- Restricted configuration: IN-subqueries denied under distributed execution. -/
def cfgDeny : Config := { allowInSubquery := false, replicas := 2 }

/-- Example environment: tables 0 and 1 each hold the single row [1]. -/
def envTwoTables : Env
  | 0 => [[1]]
  | 1 => [[1]]
  | _ => []

/-- Example partition assignment for two replicas: replica 0 owns table 0's row,
replica 1 owns table 1's row, a crossing assignment. -/
def partCross : PartAssign
  | 0, 0 => [[1]]
  | 1, 1 => [[1]]
  | _, _ => []

/-- Example environment over three tables, each holding the single row [1]. -/
def envThree : Env
  | 0 => [[1]]
  | 1 => [[1]]
  | 2 => [[1]]
  | _ => []

/-- Example partition assignment over three tables for two replicas. -/
def partThree : PartAssign
  | 0, 0 => [[1]]
  | 1, 1 => [[1]]
  | 2, 0 => [[1]]
  | _, _ => []

/-- Scenario A of the spec: Left Join of a distributable and a broadcast scan. -/
def planScenarioA : PlanNode := .join .left 0 0 1 1 (.scan 0 true) (.scan 1 false)

/-- Scenario B of the spec: a global Sort above Scenario A's join. -/
def planScenarioB : PlanNode := .sort true planScenarioA

/-- Inner join of two distributable scans of different tables. -/
def planTwoDist : PlanNode := .join .inner 0 0 1 1 (.scan 0 true) (.scan 1 true)

/-- A finalized Aggregate whose input contains a Right Join. -/
def planAggOverRF : PlanNode :=
  .aggregate true 0 0 (.join .right 0 0 1 1 (.scan 0 true) (.scan 1 true))

/-- An inner join whose two inputs each carry their own global Sort. -/
def planTwoSorts : PlanNode :=
  .join .inner 0 0 1 1 (.sort true (.scan 0 true)) (.sort true (.scan 1 true))

/-- A Right Join of a distributable and a broadcast scan. -/
def planRightJoin : PlanNode := .join .right 0 0 1 1 (.scan 0 true) (.scan 1 false)

/-- An inner join whose right input filters a distributable scan through an
IN-subquery set built over another distributable scan. -/
def planInJoin : PlanNode :=
  .join .inner 0 0 1 1 (.scan 0 true) (.setBuild .once 0 (.scan 2 true) (.scan 1 true))

/-- Pointwise permutation of the pieces of a flatMap yields permuted flatMaps. -/
theorem perm_flatMap_congr {α β : Type} {l : List α} {f g : α → List β}
    (h : ∀ a ∈ l, (f a).Perm (g a)) : (l.flatMap f).Perm (l.flatMap g) := by
  induction l with
  | nil => simp
  | cons a t ih =>
      simp only [List.flatMap_cons]
      exact (h a (by simp)).append (ih (fun b hb => h b (by simp [hb])))

/-- Permuting the outer list of a flatMap permutes the result. -/
theorem perm_flatMap {α β : Type} {l l' : List α} (f : α → List β)
    (h : l.Perm l') : (l.flatMap f).Perm (l'.flatMap f) := by
  have := (h.map f).flatten
  simpa [List.flatMap] using this

/-- A filter inside every piece of a flatMap can be pulled out. -/
theorem flatMap_filter_comm {α β : Type} (l : List α) (g : α → List β) (p : β → Bool) :
    l.flatMap (fun i => (g i).filter p) = (l.flatMap g).filter p := by
  induction l with
  | nil => simp
  | cons a t ih => simp [List.flatMap_cons, List.filter_append, ih]

/-- A map inside every piece of a flatMap can be pulled out. -/
theorem flatMap_map_comm {α β γ : Type} (l : List α) (g : α → List β) (f : β → γ) :
    l.flatMap (fun i => (g i).map f) = (l.flatMap g).map f := by
  induction l with
  | nil => simp
  | cons a t ih => simp [List.flatMap_cons, List.map_append, ih]

/-- Summing the value column distributes over concatenation of the rows. -/
theorem sumFor_append (k v : Nat) (xs ys : List Row) (key : Int) :
    sumFor k v (xs ++ ys) key = sumFor k v xs key + sumFor k v ys key := by
  simp [sumFor, List.filter_append, List.map_append, List.sum_append]

/-- Summing the value column is invariant under permutation of the rows. -/
theorem sumFor_perm (k v : Nat) {xs ys : List Row} (h : xs.Perm ys) (key : Int) :
    sumFor k v xs key = sumFor k v ys key :=
  List.Perm.sum_eq (((h.filter _).map _))

/-- The distinct grouping keys are invariant under permutation of the rows. -/
theorem keysOf_perm (k : Nat) {xs ys : List Row} (h : xs.Perm ys) :
    keysOf k xs = keysOf k ys := by
  unfold keysOf
  rw [List.toFinset_eq_of_perm _ _ (h.map _)]

/-- Aggregation is invariant under permutation of the input rows. -/
theorem aggEval_perm (k v : Nat) {xs ys : List Row} (h : xs.Perm ys) :
    aggEval k v xs = aggEval k v ys := by
  unfold aggEval
  rw [keysOf_perm k h]
  exact List.map_congr_left (fun key _ => by rw [sumFor_perm k v h])

/-- Membership in the distinct-key list is membership among the rows' keys. -/
theorem mem_keysOf {k : Nat} {rows : List Row} {key : Int} :
    key ∈ keysOf k rows ↔ key ∈ rows.map (keyOf k) := by
  simp [keysOf, Finset.mem_sort, List.mem_toFinset]

/-- A key occurring in no row has sum zero. -/
theorem sumFor_eq_zero (k v : Nat) {rows : List Row} {key : Int}
    (h : key ∉ rows.map (keyOf k)) : sumFor k v rows key = 0 := by
  have : rows.filter (fun r => keyOf k r == key) = [] := by
    rw [List.filter_eq_nil_iff]
    intro r hr hbeq
    exact h (List.mem_map.mpr ⟨r, hr, by simpa using hbeq⟩)
  simp [sumFor, this]

/-- Looking a key up in a canonical state built over a duplicate-free key list. -/
theorem lookup0_map_keys {ks : List Int} (g : Int → Int) (key : Int) (h : ks.Nodup) :
    lookup0 (ks.map (fun x => (x, g x))) key = if key ∈ ks then g key else 0 := by
  induction ks with
  | nil => simp [lookup0]
  | cons a t ih =>
      simp only [List.nodup_cons] at h
      simp only [List.map_cons, lookup0, List.filter_cons]
      by_cases hak : a = key
      · subst hak
        simp only [beq_self_eq_true, if_pos, List.map_cons, List.sum_cons]
        have : (t.map (fun x => (x, g x))).filter (fun p => p.1 == a) = [] := by
          rw [List.filter_eq_nil_iff]
          intro p hp hbeq
          rcases List.mem_map.mp hp with ⟨x, hx, rfl⟩
          exact h.1 (by simpa using (eq_of_beq hbeq) ▸ hx)
        simp [this, List.mem_cons]
      · have hne : ((a, g a).1 == key) = false := by simpa using hak
        simp only [hne, Bool.false_eq_true, if_false]
        simp only [lookup0] at ih
        rw [ih h.2]
        have hka : ¬ key = a := fun hh => hak hh.symm
        simp [List.mem_cons, hka]

/-- A key absent from a state has accumulated value zero. -/
theorem lookup0_eq_zero {a : List (Int × Int)} {key : Int}
    (h : key ∉ a.map Prod.fst) : lookup0 a key = 0 := by
  have : a.filter (fun p => p.1 == key) = [] := by
    rw [List.filter_eq_nil_iff]
    intro p hp hbeq
    exact h (List.mem_map.mpr ⟨p, hp, by simpa using hbeq⟩)
  simp [lookup0, this]

/-- Looking a key up in an aggregation state gives the sum over the source rows. -/
theorem lookup0_aggEval (k v : Nat) (rows : List Row) (key : Int) :
    lookup0 (aggEval k v rows) key = sumFor k v rows key := by
  unfold aggEval
  rw [lookup0_map_keys _ _ (by simp [keysOf, Finset.sort_nodup])]
  by_cases hmem : key ∈ keysOf k rows
  · simp [hmem]
  · rw [if_neg hmem]
    exact (sumFor_eq_zero k v (fun hc => hmem (mem_keysOf.mpr hc))).symm

/-- Unfolded form of `combine`. -/
theorem combine_unfold (x y : List (Int × Int)) :
    combine x y = (((x.map Prod.fst).toFinset ∪ (y.map Prod.fst).toFinset).sort (· ≤ ·)).map
      (fun key => (key, lookup0 x key + lookup0 y key)) := rfl

/-- The keys of an aggregation state are the distinct keys of its rows. -/
theorem aggEval_fst (k v : Nat) (xs : List Row) :
    (aggEval k v xs).map Prod.fst = keysOf k xs := by
  unfold aggEval
  rw [List.map_map]
  exact (List.map_congr_left fun key _ => rfl).trans (List.map_id _)

/-- The key set underlying the distinct-key list. -/
theorem keysOf_toFinset (k : Nat) (xs : List Row) :
    (keysOf k xs).toFinset = (xs.map (keyOf k)).toFinset := by
  simp [keysOf, Finset.sort_toFinset]

/-- The key set of a combined state is the union of the two key sets. -/
theorem combine_fst_toFinset (a b : List (Int × Int)) :
    ((combine a b).map Prod.fst).toFinset =
      (a.map Prod.fst).toFinset ∪ (b.map Prod.fst).toFinset := by
  rw [combine_unfold, List.map_map]
  have hid : List.map (Prod.fst ∘ fun key => (key, lookup0 a key + lookup0 b key))
      (((a.map Prod.fst).toFinset ∪ (b.map Prod.fst).toFinset).sort (· ≤ ·)) =
      ((a.map Prod.fst).toFinset ∪ (b.map Prod.fst).toFinset).sort (· ≤ ·) :=
    (List.map_congr_left fun key _ => rfl).trans (List.map_id _)
  rw [hid, Finset.sort_toFinset]

/-- Looking a key up in a combined state adds the two accumulated values. -/
theorem lookup0_combine (a b : List (Int × Int)) (key : Int) :
    lookup0 (combine a b) key = lookup0 a key + lookup0 b key := by
  rw [combine_unfold, lookup0_map_keys _ _ (Finset.sort_nodup _ _)]
  by_cases hmem : key ∈ ((a.map Prod.fst).toFinset ∪ (b.map Prod.fst).toFinset).sort (· ≤ ·)
  · simp [hmem]
  · rw [if_neg hmem]
    rw [Finset.mem_sort, Finset.mem_union] at hmem
    push_neg at hmem
    rw [lookup0_eq_zero (fun hc => hmem.1 (List.mem_toFinset.mpr hc)),
      lookup0_eq_zero (fun hc => hmem.2 (List.mem_toFinset.mpr hc))]
    simp

/-- Aggregation over concatenated rows is the combination of the two states. -/
theorem aggEval_append (k v : Nat) (xs ys : List Row) :
    aggEval k v (xs ++ ys) = combine (aggEval k v xs) (aggEval k v ys) := by
  rw [combine_unfold, aggEval_fst, aggEval_fst, keysOf_toFinset, keysOf_toFinset,
    ← List.toFinset_append, ← List.map_append]
  refine List.map_congr_left fun key _ => ?_
  rw [lookup0_aggEval, lookup0_aggEval, sumFor_append]

/-- Combining partial aggregation states is commutative. -/
theorem combine_comm (a b : List (Int × Int)) : combine a b = combine b a := by
  rw [combine_unfold, combine_unfold, Finset.union_comm]
  exact List.map_congr_left fun key _ => by rw [Int.add_comm]

/-- Combining partial aggregation states is associative. -/
theorem combine_assoc (a b c : List (Int × Int)) :
    combine (combine a b) c = combine a (combine b c) := by
  rw [combine_unfold (combine a b) c, combine_unfold a (combine b c),
    combine_fst_toFinset, combine_fst_toFinset, Finset.union_assoc]
  refine List.map_congr_left fun key _ => ?_
  rw [lookup0_combine, lookup0_combine, Int.add_assoc]

/-- Aggregation of no rows is the empty state. -/
theorem aggEval_nil (k v : Nat) : aggEval k v [] = [] := by
  simp [aggEval, keysOf]

/-- The keys of an encoded state are read back from column zero. -/
theorem encState_keys (st : List (Int × Int)) :
    (encState st).map (keyOf 0) = st.map Prod.fst := by
  simp [encState, keyOf, List.map_map, Function.comp]

/-- Filtering an encoded state by key is encoding the filtered state. -/
theorem encState_filter (st : List (Int × Int)) (key : Int) :
    (encState st).filter (fun r => keyOf 0 r == key) =
      encState (st.filter (fun p => p.1 == key)) := by
  simp only [encState, List.filter_map]
  congr 1

/-- Summing column one of an encoded state recovers the accumulated value. -/
theorem sumFor_encState (st : List (Int × Int)) (key : Int) :
    sumFor 0 1 (encState st) key = lookup0 st key := by
  rw [sumFor, encState_filter]
  simp only [encState, lookup0, List.map_map]
  exact congrArg List.sum (List.map_congr_left fun p _ => rfl)

/-- Re-aggregating the encoded rows of an aggregation state is the identity. -/
theorem aggEval_encState (k v : Nat) (xs : List Row) :
    aggEval 0 1 (encState (aggEval k v xs)) = aggEval k v xs := by
  have hkeys : keysOf 0 (encState (aggEval k v xs)) = keysOf k xs := by
    rw [keysOf, encState_keys, aggEval_fst, keysOf_toFinset]
    rfl
  calc aggEval 0 1 (encState (aggEval k v xs))
      = (keysOf 0 (encState (aggEval k v xs))).map
          (fun key => (key, sumFor 0 1 (encState (aggEval k v xs)) key)) := rfl
    _ = (keysOf k xs).map (fun key => (key, sumFor k v xs key)) := by
        rw [hkeys]
        exact List.map_congr_left fun key _ => by rw [sumFor_encState, lookup0_aggEval]
    _ = aggEval k v xs := rfl

/-- Re-aggregating the concatenated encoded per-branch states equals aggregating
the concatenated source rows: the MergeAggregate step over fan-out branches. -/
theorem aggEval_states_flatMap (k v : Nat) (l : List Nat) (g : Nat → List Row) :
    aggEval 0 1 (l.flatMap (fun j => encState (aggEval k v (g j)))) =
      aggEval k v (l.flatMap g) := by
  induction l with
  | nil => simp [aggEval_nil]
  | cons a t ih =>
      rw [List.flatMap_cons, List.flatMap_cons, aggEval_append, aggEval_append, ih,
        aggEval_encState]

/-- Folding `combine` over the per-partition states equals aggregating the union of
the partitions (section 8, second testable property). -/
theorem foldCombine_aggEval (k v : Nat) (parts : List (List Row)) :
    foldCombine (parts.map (aggEval k v)) = aggEval k v parts.flatten := by
  induction parts with
  | nil => simp [foldCombine, aggEval_nil]
  | cons p ps ih =>
      simp only [List.map_cons, foldCombine, List.foldr_cons, List.flatten_cons]
      rw [show List.foldr combine [] (ps.map (aggEval k v)) =
        foldCombine (ps.map (aggEval k v)) from rfl, ih, ← aggEval_append]

/-- Sorting rows permutes them. -/
theorem sortRows_perm (rows : List Row) : (sortRows rows).Perm rows :=
  List.perm_insertionSort _ rows

/-- Sorted output of `sortRows`. -/
theorem sortRows_sorted (rows : List Row) : List.Sorted (· ≤ ·) (sortRows rows) :=
  List.sorted_insertionSort _ rows

/-- Sorting identifies permuted inputs: the requested total order is unique. -/
theorem sortRows_eq_of_perm {xs ys : List Row} (h : xs.Perm ys) :
    sortRows xs = sortRows ys :=
  List.eq_of_perm_of_sorted (((sortRows_perm xs).trans h).trans (sortRows_perm ys).symm)
    (sortRows_sorted xs) (sortRows_sorted ys)

/-- Merging the locally sorted streams of any partitioning yields the same total
order as one sort over the union of the partitions (section 8, third testable
property). -/
theorem mergeSort_streams (parts : List (List Row)) :
    sortRows (parts.map sortRows).flatten = sortRows parts.flatten := by
  refine sortRows_eq_of_perm ?_
  induction parts with
  | nil => simp
  | cons p ps ih =>
      simp only [List.map_cons, List.flatten_cons]
      exact (sortRows_perm p).append ih

/-- Inner join distributes over concatenation of the left input. -/
theorem joinRows_inner_append_left (kl kr lw rw : Nat) (L1 L2 R : List Row) :
    joinRows .inner kl kr lw rw (L1 ++ L2) R =
      joinRows .inner kl kr lw rw L1 R ++ joinRows .inner kl kr lw rw L2 R := by
  simp [joinRows, List.flatMap_append]

/-- Left join distributes over concatenation of the left input. -/
theorem joinRows_left_append_left (kl kr lw rw : Nat) (L1 L2 R : List Row) :
    joinRows .left kl kr lw rw (L1 ++ L2) R =
      joinRows .left kl kr lw rw L1 R ++ joinRows .left kl kr lw rw L2 R := by
  simp [joinRows, List.flatMap_append]

/-- A permutation of the left input permutes the join output. -/
theorem joinRows_perm_left (kind : JoinKind) (kl kr lw rw : Nat) {L L' : List Row}
    (R : List Row) (h : L.Perm L') :
    (joinRows kind kl kr lw rw L R).Perm (joinRows kind kl kr lw rw L' R) := by
  cases kind with
  | inner => exact perm_flatMap _ h
  | left => exact perm_flatMap _ h
  | right =>
      refine perm_flatMap_congr fun b _ => ?_
      have hf := h.filter (fun a => keyOf kl a == keyOf kr b)
      simp only
      rw [List.Perm.isEmpty_eq hf]
      by_cases he : (L'.filter (fun a => keyOf kl a == keyOf kr b)).isEmpty
      · simp [he]
      · simp only [he, if_false]
        exact hf.map _
  | full =>
      have h2 : R.filter (fun b => (L.filter (fun a => keyOf kl a == keyOf kr b)).isEmpty) =
          R.filter (fun b => (L'.filter (fun a => keyOf kl a == keyOf kr b)).isEmpty) := by
        refine List.filter_congr fun b _ => ?_
        rw [List.Perm.isEmpty_eq (h.filter _)]
      simp only [joinRows]
      rw [h2]
      exact List.Perm.append (perm_flatMap _ h) (List.Perm.refl _)

/-- A permutation of the right input permutes the join output. -/
theorem joinRows_perm_right (kind : JoinKind) (kl kr lw rw : Nat) (L : List Row)
    {R R' : List Row} (h : R.Perm R') :
    (joinRows kind kl kr lw rw L R).Perm (joinRows kind kl kr lw rw L R') := by
  cases kind with
  | inner =>
      exact perm_flatMap_congr fun a _ => (h.filter _).map _
  | left =>
      refine perm_flatMap_congr fun a _ => ?_
      have hf := h.filter (fun b => keyOf kl a == keyOf kr b)
      simp only
      rw [List.Perm.isEmpty_eq hf]
      by_cases he : (R'.filter (fun b => keyOf kl a == keyOf kr b)).isEmpty
      · simp [he]
      · simp only [he, if_false]
        exact hf.map _
  | right => exact perm_flatMap _ h
  | full =>
      refine List.Perm.append ?_ ((h.filter _).map _)
      refine perm_flatMap_congr fun a _ => ?_
      have hf := h.filter (fun b => keyOf kl a == keyOf kr b)
      simp only
      rw [List.Perm.isEmpty_eq hf]
      by_cases he : (R'.filter (fun b => keyOf kl a == keyOf kr b)).isEmpty
      · simp [he]
      · simp only [he, if_false]
        exact hf.map _

/-- Inner join commutes with a flatMap on the left input. -/
theorem flatMap_joinRows_inner (kl kr lw rw : Nat) (l : List Nat) (g : Nat → List Row)
    (R : List Row) :
    l.flatMap (fun i => joinRows .inner kl kr lw rw (g i) R) =
      joinRows .inner kl kr lw rw (l.flatMap g) R := by
  induction l with
  | nil => rfl
  | cons a t ih => rw [List.flatMap_cons, List.flatMap_cons, joinRows_inner_append_left, ih]

/-- Left join commutes with a flatMap on the left input. -/
theorem flatMap_joinRows_left (kl kr lw rw : Nat) (l : List Nat) (g : Nat → List Row)
    (R : List Row) :
    l.flatMap (fun i => joinRows .left kl kr lw rw (g i) R) =
      joinRows .left kl kr lw rw (l.flatMap g) R := by
  induction l with
  | nil => rfl
  | cons a t ih => rw [List.flatMap_cons, List.flatMap_cons, joinRows_left_append_left, ih]

/-- A plan without distributable scans evaluates identically on every replica and
under every partition assignment. -/
theorem evalR_indep (env : Env) {p : PlanNode} (h : hasDistScan p = false)
    (part part' : PartAssign) (i i' : Nat) :
    evalR env part i p = evalR env part' i' p := by
  induction p generalizing i i' with
  | scan t d =>
      simp only [hasDistScan] at h
      simp [evalR, h]
  | filter c lit ch ih =>
      simp only [hasDistScan] at h
      simp only [evalR]
      rw [ih h i i']
  | expression cols ch ih =>
      simp only [hasDistScan] at h
      simp only [evalR]
      rw [ih h i i']
  | join kind kl kr lw rw l r ihl ihr =>
      simp only [hasDistScan, Bool.or_eq_false_iff] at h
      simp only [evalR]
      rw [ihl h.1 i i', ihr h.2 i i']
  | aggregate fin k v ch ih =>
      simp only [hasDistScan] at h
      simp only [evalR]
      rw [ih h i i']
  | sort g ch ih =>
      simp only [hasDistScan] at h
      simp only [evalR]
      rw [ih h i i']
  | setBuild pol c inner ch ihInner ihCh =>
      simp only [hasDistScan, Bool.or_eq_false_iff] at h
      simp only [evalR]
      rw [ihCh h.2 i i']
  | mergeAggregate ch ih =>
      simp only [hasDistScan] at h
      simp only [evalR]
      rw [ih h i i']
  | mergeSort ch ih =>
      simp only [hasDistScan] at h
      simp only [evalR]
      rw [ih h i i']
  | fanOutReplica plan reps ih =>
      simp only [hasDistScan] at h
      simp only [evalR]
      exact List.flatMap_congr fun j _ => ih h j j

/-- Distribution of a pushed subtree: over a valid partition assignment, the
interleaved per-replica outputs of a distribution-safe subtree are a permutation
of its single-node evaluation. -/
theorem pushed_perm (env : Env) (part : PartAssign) (R : Nat)
    (hV : validPart env part R) {p : PlanNode} (h : distSafe p = true) :
    ((List.range R).flatMap (fun i => evalR env part i p)).Perm (evalS env p) := by
  induction p with
  | scan t d =>
      simp only [distSafe] at h
      simpa [evalR, evalS, h] using hV t
  | filter c lit ch ih =>
      simp only [distSafe] at h
      simp only [evalR, evalS]
      rw [flatMap_filter_comm]
      exact (ih h).filter _
  | expression cols ch ih =>
      simp only [distSafe] at h
      simp only [evalR, evalS]
      rw [flatMap_map_comm]
      exact (ih h).map _
  | join kind kl kr lw rw l r ihl ihr =>
      cases kind with
      | inner =>
          simp only [distSafe, Bool.and_eq_true, Bool.not_eq_true',
            Bool.or_eq_true, beq_iff_eq] at h
          have hr : ∀ i : Nat, evalR env part i r = evalS env r := fun i =>
            evalR_indep env h.2 part (fun t _ => env t) i 0
          have h1 : (List.range R).flatMap
              (fun i => evalR env part i (.join .inner kl kr lw rw l r)) =
              joinRows .inner kl kr lw rw
                ((List.range R).flatMap (fun i => evalR env part i l)) (evalS env r) := by
            rw [show (List.range R).flatMap
                (fun i => evalR env part i (.join .inner kl kr lw rw l r)) =
                (List.range R).flatMap
                (fun i => joinRows .inner kl kr lw rw (evalR env part i l) (evalS env r)) from
              List.flatMap_congr fun i _ => by simp only [evalR, hr i]]
            exact flatMap_joinRows_inner kl kr lw rw _ _ _
          rw [h1]
          exact joinRows_perm_left .inner kl kr lw rw (evalS env r) (ihl h.1.2)
      | left =>
          simp only [distSafe, Bool.and_eq_true, Bool.not_eq_true',
            Bool.or_eq_true, beq_iff_eq] at h
          have hr : ∀ i : Nat, evalR env part i r = evalS env r := fun i =>
            evalR_indep env h.2 part (fun t _ => env t) i 0
          have h1 : (List.range R).flatMap
              (fun i => evalR env part i (.join .left kl kr lw rw l r)) =
              joinRows .left kl kr lw rw
                ((List.range R).flatMap (fun i => evalR env part i l)) (evalS env r) := by
            rw [show (List.range R).flatMap
                (fun i => evalR env part i (.join .left kl kr lw rw l r)) =
                (List.range R).flatMap
                (fun i => joinRows .left kl kr lw rw (evalR env part i l) (evalS env r)) from
              List.flatMap_congr fun i _ => by simp only [evalR, hr i]]
            exact flatMap_joinRows_left kl kr lw rw _ _ _
          rw [h1]
          exact joinRows_perm_left .left kl kr lw rw (evalS env r) (ihl h.1.2)
      | right => simp [distSafe] at h
      | full => simp [distSafe] at h
  | aggregate fin k v ch ih => simp [distSafe] at h
  | sort g ch ih =>
      simp only [distSafe] at h
      simp only [evalR, evalS]
      have h1 : ((List.range R).flatMap
          (fun i => sortRows (evalR env part i ch))).Perm
          ((List.range R).flatMap (fun i => evalR env part i ch)) :=
        perm_flatMap_congr fun i _ => sortRows_perm _
      exact (h1.trans (ih h)).trans (sortRows_perm _).symm
  | setBuild pol c inner ch ihInner ihCh =>
      simp only [distSafe] at h
      simp only [evalR, evalS]
      rw [flatMap_filter_comm]
      exact (ihCh h).filter _
  | mergeAggregate ch ih => simp [distSafe] at h
  | mergeSort ch ih => simp [distSafe] at h
  | fanOutReplica plan reps ih => simp [distSafe] at h

/-- Whether the root of a plan is an operator an upstream plan may contain. -/
def inputRoot : PlanNode → Bool
  | .mergeAggregate _ => false
  | .mergeSort _ => false
  | .fanOutReplica _ _ => false
  | _ => true

/-- A subtree with no merge-requiring node is pushed whole behind one fan-out. -/
theorem rewrite_free {cfg : Config} {p : PlanNode} (hm : hasMergeReq cfg p = false)
    (hr : inputRoot p = true) : rewrite cfg p = .fanOutReplica p cfg.replicas := by
  cases p <;> simp_all [rewrite, inputRoot]

/-- A distribution-safe subtree has an upstream root operator. -/
theorem distSafe_inputRoot {p : PlanNode} (h : distSafe p = true) : inputRoot p = true := by
  cases p <;> simp_all [distSafe, inputRoot]

/-- Correctness of the rewriter: over a valid partition assignment, coordinator
evaluation of the rewritten plan is a permutation of the single-node evaluation of
the original plan, for every distribution-safe plan and configuration. -/
theorem rewrite_perm (cfg : Config) (env : Env) (part : PartAssign)
    (hV : validPart env part cfg.replicas) :
    ∀ {p : PlanNode}, safeSplit cfg p = true →
      (evalC env part (rewrite cfg p)).Perm (evalS env p) := by
  intro p
  induction p with
  | scan t d =>
      intro hS
      have hm : hasMergeReq cfg (.scan t d) = false := rfl
      simp only [safeSplit, hm, Bool.false_eq_true, if_false] at hS
      rw [evalC, rewrite_free hm (distSafe_inputRoot hS)]
      exact pushed_perm env part cfg.replicas hV hS
  | filter c lit ch ih =>
      intro hS
      by_cases hm : hasMergeReq cfg (.filter c lit ch) = true
      · simp only [safeSplit, hm, if_true] at hS
        simp only [rewrite, hm, if_true, evalC, evalR]
        exact (ih hS).filter _
      · rw [Bool.not_eq_true] at hm
        simp only [safeSplit, hm, Bool.false_eq_true, if_false] at hS
        rw [evalC, rewrite_free hm (distSafe_inputRoot hS)]
        exact pushed_perm env part cfg.replicas hV hS
  | expression cols ch ih =>
      intro hS
      by_cases hm : hasMergeReq cfg (.expression cols ch) = true
      · simp only [safeSplit, hm, if_true] at hS
        simp only [rewrite, hm, if_true, evalC, evalR]
        exact (ih hS).map _
      · rw [Bool.not_eq_true] at hm
        simp only [safeSplit, hm, Bool.false_eq_true, if_false] at hS
        rw [evalC, rewrite_free hm (distSafe_inputRoot hS)]
        exact pushed_perm env part cfg.replicas hV hS
  | join kind kl kr lw rw l r ihl ihr =>
      intro hS
      by_cases hm : hasMergeReq cfg (.join kind kl kr lw rw l r) = true
      · simp only [safeSplit, hm, if_true, Bool.and_eq_true] at hS
        simp only [rewrite, hm, if_true, evalC, evalR]
        exact (joinRows_perm_left kind kl kr lw rw _ (ihl hS.1)).trans
          (joinRows_perm_right kind kl kr lw rw _ (ihr hS.2))
      · rw [Bool.not_eq_true] at hm
        simp only [safeSplit, hm, Bool.false_eq_true, if_false] at hS
        rw [evalC, rewrite_free hm (distSafe_inputRoot hS)]
        exact pushed_perm env part cfg.replicas hV hS
  | aggregate fin k v ch ih =>
      intro hS
      by_cases hm : hasMergeReq cfg (.aggregate fin k v ch) = true
      · by_cases hsp : (fin && !hasMergeReq cfg ch) = true
        · simp only [safeSplit, hm, if_true, hsp] at hS
          simp only [rewrite, hm, if_true, hsp, evalC, evalR]
          have hpush : ((List.range cfg.replicas).flatMap
              (fun j => evalR env part j ch)).Perm (evalS env ch) :=
            pushed_perm env part cfg.replicas hV hS
          rw [aggEval_states_flatMap k v (List.range cfg.replicas)
            (fun j => evalR env part j ch), aggEval_perm k v hpush]
          exact List.Perm.refl _
        · simp only [safeSplit, hm, if_true, hsp, Bool.false_eq_true, if_false] at hS
          simp only [rewrite, hm, if_true, hsp, Bool.false_eq_true, if_false, evalC, evalR]
          have hch := ih hS
          rw [evalC] at hch
          rw [aggEval_perm k v hch]
          exact List.Perm.refl _
      · rw [Bool.not_eq_true] at hm
        simp only [safeSplit, hm, Bool.false_eq_true, if_false] at hS
        simp [distSafe] at hS
  | sort g ch ih =>
      intro hS
      by_cases hm : hasMergeReq cfg (.sort g ch) = true
      · by_cases hsp : (g && !hasMergeReq cfg ch) = true
        · simp only [safeSplit, hm, if_true, hsp] at hS
          simp only [rewrite, hm, if_true, hsp, evalC, evalR]
          have hpush : ((List.range cfg.replicas).flatMap
              (fun j => evalR env part j ch)).Perm (evalS env ch) :=
            pushed_perm env part cfg.replicas hV hS
          have hinner : ((List.range cfg.replicas).flatMap
              (fun j => sortRows (evalR env part j ch))).Perm (evalS env ch) :=
            (perm_flatMap_congr fun j _ => sortRows_perm _).trans hpush
          rw [sortRows_eq_of_perm hinner]
          exact List.Perm.refl _
        · simp only [safeSplit, hm, if_true, hsp, Bool.false_eq_true, if_false] at hS
          simp only [rewrite, hm, if_true, hsp, Bool.false_eq_true, if_false, evalC, evalR]
          have hch := ih hS
          rw [evalC] at hch
          rw [sortRows_eq_of_perm hch]
          exact List.Perm.refl _
      · rw [Bool.not_eq_true] at hm
        simp only [safeSplit, hm, Bool.false_eq_true, if_false] at hS
        rw [evalC, rewrite_free hm (distSafe_inputRoot hS)]
        exact pushed_perm env part cfg.replicas hV hS
  | setBuild pol c inner ch ihInner ihCh =>
      intro hS
      by_cases hm : hasMergeReq cfg (.setBuild pol c inner ch) = true
      · simp only [safeSplit, hm, if_true] at hS
        simp only [rewrite, hm, if_true, evalC, evalR]
        exact (ihCh hS).filter _
      · rw [Bool.not_eq_true] at hm
        simp only [safeSplit, hm, Bool.false_eq_true, if_false] at hS
        rw [evalC, rewrite_free hm (distSafe_inputRoot hS)]
        exact pushed_perm env part cfg.replicas hV hS
  | mergeAggregate ch ih =>
      intro hS
      simp [safeSplit] at hS
  | mergeSort ch ih =>
      intro hS
      simp [safeSplit] at hS
  | fanOutReplica plan reps ih =>
      intro hS
      simp [safeSplit] at hS

/-- Order correctness at a global-Sort root: coordinator evaluation of the
rewritten plan reproduces the single-node total order exactly. -/
theorem rewrite_sortRoot_eq (cfg : Config) (env : Env) (part : PartAssign)
    {ch : PlanNode} (hS : safeSplit cfg (.sort true ch) = true)
    (hV : validPart env part cfg.replicas) :
    evalC env part (rewrite cfg (.sort true ch)) = evalS env (.sort true ch) := by
  have hm : hasMergeReq cfg (.sort true ch) = true := by simp [hasMergeReq]
  by_cases hc : hasMergeReq cfg ch = true
  · have hsp : (true && !hasMergeReq cfg ch) = false := by simp [hc]
    simp only [safeSplit, hm, if_true, hsp, Bool.false_eq_true, if_false] at hS
    simp only [rewrite, hm, if_true, hsp, Bool.false_eq_true, if_false, evalC, evalR]
    have hch := rewrite_perm cfg env part hV hS
    rw [evalC] at hch
    rw [sortRows_eq_of_perm hch]
    rfl
  · rw [Bool.not_eq_true] at hc
    have hsp : (true && !hasMergeReq cfg ch) = true := by simp [hc]
    simp only [safeSplit, hm, if_true, hsp] at hS
    simp only [rewrite, hm, if_true, hsp, evalC, evalR]
    have hpush : ((List.range cfg.replicas).flatMap
        (fun j => evalR env part j ch)).Perm (evalS env ch) :=
      pushed_perm env part cfg.replicas hV hS
    have hinner : ((List.range cfg.replicas).flatMap
        (fun j => sortRows (evalR env part j ch))).Perm (evalS env ch) :=
      (perm_flatMap_congr fun j _ => sortRows_perm _).trans hpush
    rw [sortRows_eq_of_perm hinner]
    rfl

/-- Plans of basic operators only are never merge-requiring. -/
theorem onlyBasic_no_mr (cfg : Config) {p : PlanNode} (h : onlyBasic p = true) :
    hasMergeReq cfg p = false := by
  induction p with
  | scan t d => rfl
  | filter c lit ch ih => exact ih (by simpa [onlyBasic] using h)
  | expression cols ch ih => exact ih (by simpa [onlyBasic] using h)
  | join kind kl kr lw rw l r ihl ihr =>
      simp only [onlyBasic, Bool.and_eq_true] at h
      have hk : (kind == JoinKind.right || kind == JoinKind.full) = false := by
        cases kind <;> simp_all
      simp [hasMergeReq, hk, ihl h.1.2, ihr h.2]
  | aggregate fin k v ch ih => simp [onlyBasic] at h
  | sort g ch ih => simp [onlyBasic] at h
  | setBuild pol c inner ch ihInner ihCh => simp [onlyBasic] at h
  | mergeAggregate ch ih => simp [onlyBasic] at h
  | mergeSort ch ih => simp [onlyBasic] at h
  | fanOutReplica plan reps ih => simp [onlyBasic] at h

/-- Basic-operator plans have an upstream root operator. -/
theorem onlyBasic_inputRoot {p : PlanNode} (h : onlyBasic p = true) : inputRoot p = true := by
  cases p <;> simp_all [onlyBasic, inputRoot]

/-- A subtree without merge-requiring nodes contains no Right or Full Join. -/
theorem mr_free_no_rf (cfg : Config) {p : PlanNode} (h : hasMergeReq cfg p = false) :
    countRF p = 0 := by
  induction p with
  | scan t d => rfl
  | filter c lit ch ih => exact ih h
  | expression cols ch ih => exact ih h
  | join kind kl kr lw rw l r ihl ihr =>
      simp only [hasMergeReq, Bool.or_eq_false_iff] at h
      simp [countRF, h.1.1.1, h.1.1.2, ihl h.1.2, ihr h.2]
  | aggregate fin k v ch ih =>
      simp only [hasMergeReq, Bool.or_eq_false_iff] at h
      exact ih h.2
  | sort g ch ih =>
      simp only [hasMergeReq, Bool.or_eq_false_iff] at h
      exact ih h.2
  | setBuild pol c inner ch ihInner ihCh =>
      simp only [hasMergeReq, Bool.or_eq_false_iff] at h
      simp [countRF, ihInner h.1.2, ihCh h.2]
  | mergeAggregate ch ih => exact ih h
  | mergeSort ch ih => exact ih h
  | fanOutReplica plan reps ih => exact ih h

/-- When the configuration denies IN-subqueries, a subtree without merge-requiring
nodes contains no SetBuild. -/
theorem mr_free_no_setBuild {cfg : Config} (hA : cfg.allowInSubquery = false)
    {p : PlanNode} (h : hasMergeReq cfg p = false) : hasSetBuild p = false := by
  induction p with
  | scan t d => rfl
  | filter c lit ch ih => exact ih h
  | expression cols ch ih => exact ih h
  | join kind kl kr lw rw l r ihl ihr =>
      simp only [hasMergeReq, Bool.or_eq_false_iff] at h
      simp [hasSetBuild, ihl h.1.2, ihr h.2]
  | aggregate fin k v ch ih =>
      simp only [hasMergeReq, Bool.or_eq_false_iff] at h
      exact ih h.2
  | sort g ch ih =>
      simp only [hasMergeReq, Bool.or_eq_false_iff] at h
      exact ih h.2
  | setBuild pol c inner ch ihInner ihCh =>
      simp only [hasMergeReq, Bool.or_eq_false_iff] at h
      have hcontra := h.1.1
      rw [hA] at hcontra
      simp at hcontra
  | mergeAggregate ch ih => exact ih h
  | mergeSort ch ih => exact ih h
  | fanOutReplica plan reps ih => exact ih h

/-- Upstream input plans contain no fan-out boundary. -/
theorem inputOk_pushed_nil {p : PlanNode} (h : inputOk p = true) : pushedPlans p = [] := by
  induction p with
  | scan t d => rfl
  | filter c lit ch ih => exact ih h
  | expression cols ch ih => exact ih h
  | join kind kl kr lw rw l r ihl ihr =>
      simp only [inputOk, Bool.and_eq_true] at h
      simp [pushedPlans, ihl h.1, ihr h.2]
  | aggregate fin k v ch ih => exact ih h
  | sort g ch ih => exact ih h
  | setBuild pol c inner ch ihInner ihCh =>
      simp only [inputOk, Bool.and_eq_true] at h
      simp [pushedPlans, ihInner h.1, ihCh h.2]
  | mergeAggregate ch ih => simp [inputOk] at h
  | mergeSort ch ih => simp [inputOk] at h
  | fanOutReplica plan reps ih => simp [inputOk] at h

/-- On upstream input plans the coordinator-side Right/Full count is the total one. -/
theorem inputOk_countRFCoord {p : PlanNode} (h : inputOk p = true) :
    countRFCoord p = countRF p := by
  induction p with
  | scan t d => rfl
  | filter c lit ch ih => exact ih h
  | expression cols ch ih => exact ih h
  | join kind kl kr lw rw l r ihl ihr =>
      simp only [inputOk, Bool.and_eq_true] at h
      simp [countRFCoord, countRF, ihl h.1, ihr h.2]
  | aggregate fin k v ch ih => exact ih h
  | sort g ch ih => exact ih h
  | setBuild pol c inner ch ihInner ihCh =>
      simp only [inputOk, Bool.and_eq_true] at h
      simp [countRFCoord, countRF, ihInner h.1, ihCh h.2]
  | mergeAggregate ch ih => simp [inputOk] at h
  | mergeSort ch ih => simp [inputOk] at h
  | fanOutReplica plan reps ih => simp [inputOk] at h

/-- Upstream input plans have an upstream root operator. -/
theorem inputOk_inputRoot {p : PlanNode} (h : inputOk p = true) : inputRoot p = true := by
  cases p <;> simp_all [inputOk, inputRoot]

/-- No plan pushed behind a fan-out boundary contains a Right or Full Join. -/
theorem pushed_no_rf (cfg : Config) :
    ∀ {p : PlanNode}, inputOk p = true →
      ∀ q ∈ pushedPlans (rewrite cfg p), countRF q = 0 := by
  intro p
  induction p with
  | scan t d =>
      intro hI q hq
      have hm : hasMergeReq cfg (.scan t d) = false := rfl
      rw [rewrite_free hm (inputOk_inputRoot hI)] at hq
      simp only [pushedPlans, List.mem_singleton] at hq
      subst hq
      rfl
  | filter c lit ch ih =>
      intro hI q hq
      by_cases hm : hasMergeReq cfg (.filter c lit ch) = true
      · simp only [rewrite, hm, if_true, pushedPlans] at hq
        exact ih hI q hq
      · rw [Bool.not_eq_true] at hm
        rw [rewrite_free hm (inputOk_inputRoot hI)] at hq
        simp only [pushedPlans, List.mem_singleton] at hq
        subst hq
        exact mr_free_no_rf cfg hm
  | expression cols ch ih =>
      intro hI q hq
      by_cases hm : hasMergeReq cfg (.expression cols ch) = true
      · simp only [rewrite, hm, if_true, pushedPlans] at hq
        exact ih hI q hq
      · rw [Bool.not_eq_true] at hm
        rw [rewrite_free hm (inputOk_inputRoot hI)] at hq
        simp only [pushedPlans, List.mem_singleton] at hq
        subst hq
        exact mr_free_no_rf cfg hm
  | join kind kl kr lw rw l r ihl ihr =>
      intro hI q hq
      simp only [inputOk, Bool.and_eq_true] at hI
      by_cases hm : hasMergeReq cfg (.join kind kl kr lw rw l r) = true
      · simp only [rewrite, hm, if_true, pushedPlans, List.mem_append] at hq
        rcases hq with hq | hq
        · exact ihl hI.1 q hq
        · exact ihr hI.2 q hq
      · rw [Bool.not_eq_true] at hm
        rw [rewrite_free hm (by simp [inputRoot])] at hq
        simp only [pushedPlans, List.mem_singleton] at hq
        subst hq
        exact mr_free_no_rf cfg hm
  | aggregate fin k v ch ih =>
      intro hI q hq
      by_cases hm : hasMergeReq cfg (.aggregate fin k v ch) = true
      · by_cases hsp : (fin && !hasMergeReq cfg ch) = true
        · simp only [rewrite, hm, if_true, hsp, pushedPlans, List.mem_singleton] at hq
          subst hq
          have hch : hasMergeReq cfg ch = false := by
            rcases Bool.and_eq_true .. |>.mp hsp with ⟨_, h2⟩
            simpa using h2
          have : countRF (.aggregate false k v ch) = countRF ch := rfl
          rw [this]
          exact mr_free_no_rf cfg hch
        · simp only [rewrite, hm, if_true, hsp, Bool.false_eq_true, if_false,
            pushedPlans] at hq
          exact ih hI q hq
      · rw [Bool.not_eq_true] at hm
        rw [rewrite_free hm (inputOk_inputRoot hI)] at hq
        simp only [pushedPlans, List.mem_singleton] at hq
        subst hq
        exact mr_free_no_rf cfg hm
  | sort g ch ih =>
      intro hI q hq
      by_cases hm : hasMergeReq cfg (.sort g ch) = true
      · by_cases hsp : (g && !hasMergeReq cfg ch) = true
        · simp only [rewrite, hm, if_true, hsp, pushedPlans, List.mem_singleton] at hq
          subst hq
          have hch : hasMergeReq cfg ch = false := by
            rcases Bool.and_eq_true .. |>.mp hsp with ⟨_, h2⟩
            simpa using h2
          have : countRF (.sort true ch) = countRF ch := rfl
          rw [this]
          exact mr_free_no_rf cfg hch
        · simp only [rewrite, hm, if_true, hsp, Bool.false_eq_true, if_false,
            pushedPlans] at hq
          exact ih hI q hq
      · rw [Bool.not_eq_true] at hm
        rw [rewrite_free hm (inputOk_inputRoot hI)] at hq
        simp only [pushedPlans, List.mem_singleton] at hq
        subst hq
        exact mr_free_no_rf cfg hm
  | setBuild pol c inner ch ihInner ihCh =>
      intro hI q hq
      simp only [inputOk, Bool.and_eq_true] at hI
      by_cases hm : hasMergeReq cfg (.setBuild pol c inner ch) = true
      · simp only [rewrite, hm, if_true, pushedPlans, List.mem_append,
          inputOk_pushed_nil hI.1, List.not_mem_nil, false_or] at hq
        exact ihCh hI.2 q hq
      · rw [Bool.not_eq_true] at hm
        rw [rewrite_free hm (by simp [inputRoot])] at hq
        simp only [pushedPlans, List.mem_singleton] at hq
        subst hq
        exact mr_free_no_rf cfg hm
  | mergeAggregate ch ih => intro hI; simp [inputOk] at hI
  | mergeSort ch ih => intro hI; simp [inputOk] at hI
  | fanOutReplica plan reps ih => intro hI; simp [inputOk] at hI

/-- Every Right or Full Join of the input survives on the coordinator side. -/
theorem rf_preserved (cfg : Config) :
    ∀ {p : PlanNode}, inputOk p = true → countRFCoord (rewrite cfg p) = countRF p := by
  intro p
  induction p with
  | scan t d =>
      intro hI
      have hm : hasMergeReq cfg (.scan t d) = false := rfl
      rw [rewrite_free hm (inputOk_inputRoot hI)]
      rfl
  | filter c lit ch ih =>
      intro hI
      by_cases hm : hasMergeReq cfg (.filter c lit ch) = true
      · simp only [rewrite, hm, if_true, countRFCoord, countRF]
        exact ih hI
      · rw [Bool.not_eq_true] at hm
        rw [rewrite_free hm (inputOk_inputRoot hI)]
        simp only [countRFCoord]
        exact (mr_free_no_rf cfg hm).symm
  | expression cols ch ih =>
      intro hI
      by_cases hm : hasMergeReq cfg (.expression cols ch) = true
      · simp only [rewrite, hm, if_true, countRFCoord, countRF]
        exact ih hI
      · rw [Bool.not_eq_true] at hm
        rw [rewrite_free hm (inputOk_inputRoot hI)]
        simp only [countRFCoord]
        exact (mr_free_no_rf cfg hm).symm
  | join kind kl kr lw rw l r ihl ihr =>
      intro hI
      simp only [inputOk, Bool.and_eq_true] at hI
      by_cases hm : hasMergeReq cfg (.join kind kl kr lw rw l r) = true
      · simp only [rewrite, hm, if_true, countRFCoord, countRF]
        rw [ihl hI.1, ihr hI.2]
      · rw [Bool.not_eq_true] at hm
        rw [rewrite_free hm (by simp [inputRoot])]
        simp only [countRFCoord]
        exact (mr_free_no_rf cfg hm).symm
  | aggregate fin k v ch ih =>
      intro hI
      by_cases hm : hasMergeReq cfg (.aggregate fin k v ch) = true
      · by_cases hsp : (fin && !hasMergeReq cfg ch) = true
        · simp only [rewrite, hm, if_true, hsp, countRFCoord, countRF]
          have hch : hasMergeReq cfg ch = false := by
            rcases Bool.and_eq_true .. |>.mp hsp with ⟨_, h2⟩
            simpa using h2
          exact (mr_free_no_rf cfg hch).symm
        · simp only [rewrite, hm, if_true, hsp, Bool.false_eq_true, if_false,
            countRFCoord, countRF]
          exact ih hI
      · rw [Bool.not_eq_true] at hm
        rw [rewrite_free hm (inputOk_inputRoot hI)]
        simp only [countRFCoord]
        exact (mr_free_no_rf cfg hm).symm
  | sort g ch ih =>
      intro hI
      by_cases hm : hasMergeReq cfg (.sort g ch) = true
      · by_cases hsp : (g && !hasMergeReq cfg ch) = true
        · simp only [rewrite, hm, if_true, hsp, countRFCoord, countRF]
          have hch : hasMergeReq cfg ch = false := by
            rcases Bool.and_eq_true .. |>.mp hsp with ⟨_, h2⟩
            simpa using h2
          exact (mr_free_no_rf cfg hch).symm
        · simp only [rewrite, hm, if_true, hsp, Bool.false_eq_true, if_false,
            countRFCoord, countRF]
          exact ih hI
      · rw [Bool.not_eq_true] at hm
        rw [rewrite_free hm (inputOk_inputRoot hI)]
        simp only [countRFCoord]
        exact (mr_free_no_rf cfg hm).symm
  | setBuild pol c inner ch ihInner ihCh =>
      intro hI
      simp only [inputOk, Bool.and_eq_true] at hI
      by_cases hm : hasMergeReq cfg (.setBuild pol c inner ch) = true
      · simp only [rewrite, hm, if_true, countRFCoord, countRF]
        rw [inputOk_countRFCoord hI.1, ihCh hI.2]
      · rw [Bool.not_eq_true] at hm
        rw [rewrite_free hm (by simp [inputRoot])]
        simp only [countRFCoord]
        exact (mr_free_no_rf cfg hm).symm
  | mergeAggregate ch ih => intro hI; simp [inputOk] at hI
  | mergeSort ch ih => intro hI; simp [inputOk] at hI
  | fanOutReplica plan reps ih => intro hI; simp [inputOk] at hI

/-- The rewriter always introduces at least one fan-out boundary. -/
theorem countFanOut_pos (cfg : Config) :
    ∀ {p : PlanNode}, inputOk p = true → 1 ≤ countFanOut (rewrite cfg p) := by
  intro p
  induction p with
  | scan t d =>
      intro hI
      have hm : hasMergeReq cfg (.scan t d) = false := rfl
      rw [rewrite_free hm (inputOk_inputRoot hI)]
      simp [countFanOut, pushedPlans]
  | filter c lit ch ih =>
      intro hI
      by_cases hm : hasMergeReq cfg (.filter c lit ch) = true
      · simpa only [rewrite, hm, if_true, countFanOut, pushedPlans] using ih hI
      · rw [Bool.not_eq_true] at hm
        rw [rewrite_free hm (inputOk_inputRoot hI)]
        simp [countFanOut, pushedPlans]
  | expression cols ch ih =>
      intro hI
      by_cases hm : hasMergeReq cfg (.expression cols ch) = true
      · simpa only [rewrite, hm, if_true, countFanOut, pushedPlans] using ih hI
      · rw [Bool.not_eq_true] at hm
        rw [rewrite_free hm (inputOk_inputRoot hI)]
        simp [countFanOut, pushedPlans]
  | join kind kl kr lw rw l r ihl ihr =>
      intro hI
      simp only [inputOk, Bool.and_eq_true] at hI
      by_cases hm : hasMergeReq cfg (.join kind kl kr lw rw l r) = true
      · simp only [rewrite, hm, if_true, countFanOut, pushedPlans, List.length_append]
        have := ihl hI.1
        simp only [countFanOut] at this
        omega
      · rw [Bool.not_eq_true] at hm
        rw [rewrite_free hm (by simp [inputRoot])]
        simp [countFanOut, pushedPlans]
  | aggregate fin k v ch ih =>
      intro hI
      by_cases hm : hasMergeReq cfg (.aggregate fin k v ch) = true
      · by_cases hsp : (fin && !hasMergeReq cfg ch) = true
        · simp [rewrite, hm, hsp, countFanOut, pushedPlans]
        · simpa only [rewrite, hm, if_true, hsp, Bool.false_eq_true, if_false,
            countFanOut, pushedPlans] using ih hI
      · rw [Bool.not_eq_true] at hm
        rw [rewrite_free hm (inputOk_inputRoot hI)]
        simp [countFanOut, pushedPlans]
  | sort g ch ih =>
      intro hI
      by_cases hm : hasMergeReq cfg (.sort g ch) = true
      · by_cases hsp : (g && !hasMergeReq cfg ch) = true
        · simp [rewrite, hm, hsp, countFanOut, pushedPlans]
        · simpa only [rewrite, hm, if_true, hsp, Bool.false_eq_true, if_false,
            countFanOut, pushedPlans] using ih hI
      · rw [Bool.not_eq_true] at hm
        rw [rewrite_free hm (inputOk_inputRoot hI)]
        simp [countFanOut, pushedPlans]
  | setBuild pol c inner ch ihInner ihCh =>
      intro hI
      simp only [inputOk, Bool.and_eq_true] at hI
      by_cases hm : hasMergeReq cfg (.setBuild pol c inner ch) = true
      · simpa only [rewrite, hm, if_true, countFanOut, pushedPlans,
          inputOk_pushed_nil hI.1, List.nil_append] using ihCh hI.2
      · rw [Bool.not_eq_true] at hm
        rw [rewrite_free hm (by simp [inputRoot])]
        simp [countFanOut, pushedPlans]
  | mergeAggregate ch ih => intro hI; simp [inputOk] at hI
  | mergeSort ch ih => intro hI; simp [inputOk] at hI
  | fanOutReplica plan reps ih => intro hI; simp [inputOk] at hI

/-- When no Join has a merge-requiring subtree, the rewriter introduces exactly one
fan-out boundary. -/
theorem countFanOut_eq_one (cfg : Config) :
    ∀ {p : PlanNode}, inputOk p = true → noJoinMR cfg p = true →
      countFanOut (rewrite cfg p) = 1 := by
  intro p
  induction p with
  | scan t d =>
      intro hI hJ
      have hm : hasMergeReq cfg (.scan t d) = false := rfl
      rw [rewrite_free hm (inputOk_inputRoot hI)]
      rfl
  | filter c lit ch ih =>
      intro hI hJ
      by_cases hm : hasMergeReq cfg (.filter c lit ch) = true
      · simpa only [rewrite, hm, if_true, countFanOut, pushedPlans] using
          ih hI (by simpa [noJoinMR] using hJ)
      · rw [Bool.not_eq_true] at hm
        rw [rewrite_free hm (inputOk_inputRoot hI)]
        rfl
  | expression cols ch ih =>
      intro hI hJ
      by_cases hm : hasMergeReq cfg (.expression cols ch) = true
      · simpa only [rewrite, hm, if_true, countFanOut, pushedPlans] using
          ih hI (by simpa [noJoinMR] using hJ)
      · rw [Bool.not_eq_true] at hm
        rw [rewrite_free hm (inputOk_inputRoot hI)]
        rfl
  | join kind kl kr lw rw l r ihl ihr =>
      intro hI hJ
      simp only [noJoinMR, Bool.not_eq_true'] at hJ
      rw [rewrite_free hJ (by simp [inputRoot])]
      rfl
  | aggregate fin k v ch ih =>
      intro hI hJ
      by_cases hm : hasMergeReq cfg (.aggregate fin k v ch) = true
      · by_cases hsp : (fin && !hasMergeReq cfg ch) = true
        · simp [rewrite, hm, hsp, countFanOut, pushedPlans]
        · simpa only [rewrite, hm, if_true, hsp, Bool.false_eq_true, if_false,
            countFanOut, pushedPlans] using ih hI (by simpa [noJoinMR] using hJ)
      · rw [Bool.not_eq_true] at hm
        rw [rewrite_free hm (inputOk_inputRoot hI)]
        rfl
  | sort g ch ih =>
      intro hI hJ
      by_cases hm : hasMergeReq cfg (.sort g ch) = true
      · by_cases hsp : (g && !hasMergeReq cfg ch) = true
        · simp [rewrite, hm, hsp, countFanOut, pushedPlans]
        · simpa only [rewrite, hm, if_true, hsp, Bool.false_eq_true, if_false,
            countFanOut, pushedPlans] using ih hI (by simpa [noJoinMR] using hJ)
      · rw [Bool.not_eq_true] at hm
        rw [rewrite_free hm (inputOk_inputRoot hI)]
        rfl
  | setBuild pol c inner ch ihInner ihCh =>
      intro hI hJ
      simp only [inputOk, Bool.and_eq_true] at hI
      by_cases hm : hasMergeReq cfg (.setBuild pol c inner ch) = true
      · simpa only [rewrite, hm, if_true, countFanOut, pushedPlans,
          inputOk_pushed_nil hI.1, List.nil_append] using
          ihCh hI.2 (by simpa [noJoinMR] using hJ)
      · rw [Bool.not_eq_true] at hm
        rw [rewrite_free hm (by simp [inputRoot])]
        rfl
  | mergeAggregate ch ih => intro hI; simp [inputOk] at hI
  | mergeSort ch ih => intro hI; simp [inputOk] at hI
  | fanOutReplica plan reps ih => intro hI; simp [inputOk] at hI

/-- Under a configuration denying IN-subqueries, no plan pushed behind a fan-out
boundary contains a SetBuild node. -/
theorem pushed_no_setBuild {cfg : Config} (hA : cfg.allowInSubquery = false) :
    ∀ {p : PlanNode}, inputOk p = true →
      ∀ q ∈ pushedPlans (rewrite cfg p), hasSetBuild q = false := by
  intro p
  induction p with
  | scan t d =>
      intro hI q hq
      have hm : hasMergeReq cfg (.scan t d) = false := rfl
      rw [rewrite_free hm (inputOk_inputRoot hI)] at hq
      simp only [pushedPlans, List.mem_singleton] at hq
      subst hq
      rfl
  | filter c lit ch ih =>
      intro hI q hq
      by_cases hm : hasMergeReq cfg (.filter c lit ch) = true
      · simp only [rewrite, hm, if_true, pushedPlans] at hq
        exact ih hI q hq
      · rw [Bool.not_eq_true] at hm
        rw [rewrite_free hm (inputOk_inputRoot hI)] at hq
        simp only [pushedPlans, List.mem_singleton] at hq
        subst hq
        exact mr_free_no_setBuild hA hm
  | expression cols ch ih =>
      intro hI q hq
      by_cases hm : hasMergeReq cfg (.expression cols ch) = true
      · simp only [rewrite, hm, if_true, pushedPlans] at hq
        exact ih hI q hq
      · rw [Bool.not_eq_true] at hm
        rw [rewrite_free hm (inputOk_inputRoot hI)] at hq
        simp only [pushedPlans, List.mem_singleton] at hq
        subst hq
        exact mr_free_no_setBuild hA hm
  | join kind kl kr lw rw l r ihl ihr =>
      intro hI q hq
      simp only [inputOk, Bool.and_eq_true] at hI
      by_cases hm : hasMergeReq cfg (.join kind kl kr lw rw l r) = true
      · simp only [rewrite, hm, if_true, pushedPlans, List.mem_append] at hq
        rcases hq with hq | hq
        · exact ihl hI.1 q hq
        · exact ihr hI.2 q hq
      · rw [Bool.not_eq_true] at hm
        rw [rewrite_free hm (by simp [inputRoot])] at hq
        simp only [pushedPlans, List.mem_singleton] at hq
        subst hq
        exact mr_free_no_setBuild hA hm
  | aggregate fin k v ch ih =>
      intro hI q hq
      by_cases hm : hasMergeReq cfg (.aggregate fin k v ch) = true
      · by_cases hsp : (fin && !hasMergeReq cfg ch) = true
        · simp only [rewrite, hm, if_true, hsp, pushedPlans, List.mem_singleton] at hq
          subst hq
          have hch : hasMergeReq cfg ch = false := by
            rcases Bool.and_eq_true .. |>.mp hsp with ⟨_, h2⟩
            simpa using h2
          have : hasSetBuild (.aggregate false k v ch) = hasSetBuild ch := rfl
          rw [this]
          exact mr_free_no_setBuild hA hch
        · simp only [rewrite, hm, if_true, hsp, Bool.false_eq_true, if_false,
            pushedPlans] at hq
          exact ih hI q hq
      · rw [Bool.not_eq_true] at hm
        rw [rewrite_free hm (inputOk_inputRoot hI)] at hq
        simp only [pushedPlans, List.mem_singleton] at hq
        subst hq
        exact mr_free_no_setBuild hA hm
  | sort g ch ih =>
      intro hI q hq
      by_cases hm : hasMergeReq cfg (.sort g ch) = true
      · by_cases hsp : (g && !hasMergeReq cfg ch) = true
        · simp only [rewrite, hm, if_true, hsp, pushedPlans, List.mem_singleton] at hq
          subst hq
          have hch : hasMergeReq cfg ch = false := by
            rcases Bool.and_eq_true .. |>.mp hsp with ⟨_, h2⟩
            simpa using h2
          have : hasSetBuild (.sort true ch) = hasSetBuild ch := rfl
          rw [this]
          exact mr_free_no_setBuild hA hch
        · simp only [rewrite, hm, if_true, hsp, Bool.false_eq_true, if_false,
            pushedPlans] at hq
          exact ih hI q hq
      · rw [Bool.not_eq_true] at hm
        rw [rewrite_free hm (inputOk_inputRoot hI)] at hq
        simp only [pushedPlans, List.mem_singleton] at hq
        subst hq
        exact mr_free_no_setBuild hA hm
  | setBuild pol c inner ch ihInner ihCh =>
      intro hI q hq
      simp only [inputOk, Bool.and_eq_true] at hI
      by_cases hm : hasMergeReq cfg (.setBuild pol c inner ch) = true
      · simp only [rewrite, hm, if_true, pushedPlans, List.mem_append,
          inputOk_pushed_nil hI.1, List.not_mem_nil, false_or] at hq
        exact ihCh hI.2 q hq
      · exfalso
        rw [Bool.not_eq_true] at hm
        simp only [hasMergeReq, hA, Bool.not_false, Bool.true_or] at hm
        cases hm
  | mergeAggregate ch ih => intro hI; simp [inputOk] at hI
  | mergeSort ch ih => intro hI; simp [inputOk] at hI
  | fanOutReplica plan reps ih => intro hI; simp [inputOk] at hI

/-- Structural equality of plans is reflexive. -/
theorem planBEq_refl (p : PlanNode) : planBEq p p = true := by
  induction p with
  | scan t d => simp [planBEq]
  | filter c lit ch ih => simp [planBEq, ih]
  | expression cols ch ih => simp [planBEq, ih]
  | join kind kl kr lw rw l r ihl ihr => simp [planBEq, ihl, ihr]
  | aggregate fin k v ch ih => simp [planBEq, ih]
  | sort g ch ih => simp [planBEq, ih]
  | setBuild pol c inner ch ihInner ihCh => simp [planBEq, ihInner, ihCh]
  | mergeAggregate ch ih => simp [planBEq, ih]
  | mergeSort ch ih => simp [planBEq, ih]
  | fanOutReplica plan reps ih => simp [planBEq, ih]

/-- The example crossing partition assignment is disjoint and exhaustive. -/
theorem validPart_cross : validPart envTwoTables partCross 2 := by
  intro t
  match t with
  | 0 => decide
  | 1 => decide
  | (t + 2) => exact List.Perm.refl []

/-- The example three-table partition assignment is disjoint and exhaustive. -/
theorem validPart_three : validPart envThree partThree 2 := by
  intro t
  match t with
  | 0 => decide
  | 1 => decide
  | 2 => decide
  | (t + 3) => exact List.Perm.refl []

/-- A subtree with no merge-requiring node reports a fully distributable cut. -/
theorem cutReason_free {cfg : Config} {p : PlanNode} (hm : hasMergeReq cfg p = false) :
    cutReason cfg p = .fullyDistributable := by
  cases p <;> simp [cutReason, hm]

/-- C1 counterexample: with an inner join of two distributable scans and a valid
crossing partition assignment, the distributed evaluation of the split plan loses
the matching row, so the multiset of rows differs from single-node evaluation. -/
theorem c1_counterexample :
    validPart envTwoTables partCross 2 ∧
      ¬ (evalC envTwoTables partCross (rewrite cfgStd planTwoDist)).Perm
          (evalS envTwoTables planTwoDist) :=
  ⟨validPart_cross, by decide⟩

/-- C1 (amended): for every configuration, environment, valid partition assignment
and distribution-safe plan — every pushed join is Inner or Left with a right input
free of distributable scans and the partition-bearing spine ends in a distributable
scan — executing the split plan yields the same multiset of rows as non-distributed
single-node evaluation of the original tree, and exactly the same ordered list when
the root requests a global sort. -/
theorem c1_amended (cfg : Config) (env : Env) (part : PartAssign) (p : PlanNode)
    (hS : safeSplit cfg p = true) (hV : validPart env part cfg.replicas) :
    (evalC env part (rewrite cfg p)).Perm (evalS env p) ∧
      (∀ ch, p = .sort true ch →
        evalC env part (rewrite cfg p) = evalS env p) := by
  refine ⟨rewrite_perm cfg env part hV hS, ?_⟩
  intro ch hp
  subst hp
  exact rewrite_sortRoot_eq cfg env part hS hV

/-- C1 witness: the amended theorem applied to Scenario B over the example
environment and crossing partition assignment. -/
theorem c1_amended_witness :
    safeSplit cfgStd planScenarioB = true ∧
      ((evalC envTwoTables partCross (rewrite cfgStd planScenarioB)).Perm
          (evalS envTwoTables planScenarioB) ∧
        (∀ ch, planScenarioB = .sort true ch →
          evalC envTwoTables partCross (rewrite cfgStd planScenarioB) =
            evalS envTwoTables planScenarioB)) :=
  ⟨by decide, c1_amended cfgStd envTwoTables partCross planScenarioB (by decide) validPart_cross⟩

/-- C2: a plan of only Scan, Filter, Expression and Inner or Left Join operators,
with no global Sort or Aggregate, is cut at the root with reason
FullyDistributable; the coordinator subplan is a single FanOutReplica whose
branches each execute the pushed plan (one per replica), with no merge operator
above it. -/
theorem c2_fully_distributable (cfg : Config) (p : PlanNode) (h : onlyBasic p = true) :
    split cfg p = (.fanOutReplica p cfg.replicas, .fullyDistributable) ∧
      coordMergeCount (rewrite cfg p) = 0 ∧
      (∀ env part, evalC env part (rewrite cfg p) =
        (List.range cfg.replicas).flatMap (fun i => evalR env part i p)) := by
  have hm := onlyBasic_no_mr cfg h
  have hrw := rewrite_free hm (onlyBasic_inputRoot h)
  refine ⟨?_, ?_, ?_⟩
  · unfold split
    rw [hrw, cutReason_free hm]
  · rw [hrw]
    rfl
  · intro env part
    rw [hrw]
    rfl

/-- C2 witness: Scenario A, a Left Join of a distributable and a broadcast scan. -/
theorem c2_witness :
    onlyBasic planScenarioA = true ∧
      (split cfgStd planScenarioA =
          (.fanOutReplica planScenarioA cfgStd.replicas, .fullyDistributable) ∧
        coordMergeCount (rewrite cfgStd planScenarioA) = 0 ∧
        (∀ env part, evalC env part (rewrite cfgStd planScenarioA) =
          (List.range cfgStd.replicas).flatMap (fun i => evalR env part i planScenarioA))) :=
  ⟨by decide, c2_fully_distributable cfgStd planScenarioA (by decide)⟩

/-- C3 counterexample: a finalized Aggregate root whose input contains a Right
Join is not split into the PartialAggregate/MergeAggregate form: the claim's
universal statement over all finalized-Aggregate roots fails on this input. -/
theorem c3_counterexample : isAggSplit (rewrite cfgStd planAggOverRF) = false := by decide

/-- C3 (amended): for every finalized Aggregate root whose input subtree contains
no merge-requiring node (so the Aggregate is the CutPoint), split produces the
non-finalized Aggregate pushed behind the fan-out and a MergeAggregate directly
above it; combining the per-partition partial states over any partitioning equals
aggregating the union of the partitions, and the combine step is commutative and
associative. -/
theorem c3_amended (cfg : Config) (k v : Nat) (ch : PlanNode)
    (hch : hasMergeReq cfg ch = false) :
    rewrite cfg (.aggregate true k v ch) =
        .mergeAggregate (.fanOutReplica (.aggregate false k v ch) cfg.replicas) ∧
      cutReason cfg (.aggregate true k v ch) = .aggregateSplit ∧
      (∀ parts : List (List Row),
        foldCombine (parts.map (aggEval k v)) = aggEval k v parts.flatten) ∧
      (∀ a b, combine a b = combine b a) ∧
      (∀ a b c, combine (combine a b) c = combine a (combine b c)) := by
  have hm : hasMergeReq cfg (.aggregate true k v ch) = true := by simp [hasMergeReq]
  have hsp : (true && !hasMergeReq cfg ch) = true := by simp [hch]
  refine ⟨?_, ?_, foldCombine_aggEval k v, combine_comm, combine_assoc⟩
  · simp [rewrite, hm, hsp]
  · simp [cutReason, hm, hsp]

/-- C3 witness: the amended theorem applied to an Aggregate over one
distributable scan. -/
theorem c3_amended_witness :
    hasMergeReq cfgStd (.scan 0 true) = false ∧
      (rewrite cfgStd (.aggregate true 0 0 (.scan 0 true)) =
          .mergeAggregate (.fanOutReplica (.aggregate false 0 0 (.scan 0 true))
            cfgStd.replicas) ∧
        cutReason cfgStd (.aggregate true 0 0 (.scan 0 true)) = .aggregateSplit ∧
        (∀ parts : List (List Row),
          foldCombine (parts.map (aggEval 0 0)) = aggEval 0 0 parts.flatten) ∧
        (∀ a b, combine a b = combine b a) ∧
        (∀ a b c, combine (combine a b) c = combine a (combine b c))) :=
  ⟨by decide, c3_amended cfgStd 0 0 (.scan 0 true) (by decide)⟩

/-- C4: when the CutPoint is a global Sort (its input subtree has no
merge-requiring node), split pushes a local Sort behind the fan-out and places a
MergeSort directly above it; merging the locally sorted streams of any
partitioning produces the same total order as one Sort over the union of all
partitions, and over a valid partition assignment of a distribution-safe input the
split plan reproduces the single-node total order exactly. -/
theorem c4_sort_split (cfg : Config) (ch : PlanNode) (hch : hasMergeReq cfg ch = false) :
    rewrite cfg (.sort true ch) =
        .mergeSort (.fanOutReplica (.sort true ch) cfg.replicas) ∧
      cutReason cfg (.sort true ch) = .sortSplit ∧
      (∀ parts : List (List Row),
        sortRows (parts.map sortRows).flatten = sortRows parts.flatten) ∧
      (distSafe ch = true → ∀ env part, validPart env part cfg.replicas →
        evalC env part (rewrite cfg (.sort true ch)) = evalS env (.sort true ch)) := by
  have hm : hasMergeReq cfg (.sort true ch) = true := by simp [hasMergeReq]
  have hsp : (true && !hasMergeReq cfg ch) = true := by simp [hch]
  refine ⟨?_, ?_, mergeSort_streams, ?_⟩
  · simp [rewrite, hm, hsp]
  · simp [cutReason, hm, hsp]
  · intro hd env part hV
    have hS : safeSplit cfg (.sort true ch) = true := by
      simp [safeSplit, hm, hsp, hd]
    exact rewrite_sortRoot_eq cfg env part hS hV

/-- C4 witness: the sort-split theorem applied to Scenario B's global Sort, with
the order conjunct evaluated over the example partition assignment. -/
theorem c4_witness :
    hasMergeReq cfgStd planScenarioA = false ∧ distSafe planScenarioA = true ∧
      (rewrite cfgStd (.sort true planScenarioA) =
          .mergeSort (.fanOutReplica (.sort true planScenarioA) cfgStd.replicas) ∧
        evalC envTwoTables partCross (rewrite cfgStd (.sort true planScenarioA)) =
          evalS envTwoTables (.sort true planScenarioA)) :=
  ⟨by decide, by decide,
    (c4_sort_split cfgStd planScenarioA (by decide)).1,
    (c4_sort_split cfgStd planScenarioA (by decide)).2.2.2 (by decide)
      envTwoTables partCross validPart_cross⟩

/-- C5: a Right or Full Join is a barrier for the cut: no plan pushed behind any
fan-out boundary contains one, and every Right or Full Join of the input stays on
the coordinator side of the rewritten plan. -/
theorem c5_rf_join_barrier (cfg : Config) (p : PlanNode) (hI : inputOk p = true) :
    (∀ q ∈ pushedPlans (rewrite cfg p), countRF q = 0) ∧
      countRFCoord (rewrite cfg p) = countRF p :=
  ⟨pushed_no_rf cfg hI, rf_preserved cfg hI⟩

/-- C5 witness: the barrier theorem applied to a Right Join of a distributable and
a broadcast scan. -/
theorem c5_witness :
    inputOk planRightJoin = true ∧
      ((∀ q ∈ pushedPlans (rewrite cfgStd planRightJoin), countRF q = 0) ∧
        countRFCoord (rewrite cfgStd planRightJoin) = countRF planRightJoin) :=
  ⟨by decide, c5_rf_join_barrier cfgStd planRightJoin (by decide)⟩

/-- C6 counterexample: an inner join whose two inputs each carry their own global
Sort is rewritten with two fan-out boundaries, not exactly one. -/
theorem c6_counterexample :
    countFanOut (rewrite cfgStd planTwoSorts) = 2 ∧
      ¬ countFanOut (rewrite cfgStd planTwoSorts) = 1 := by decide

/-- C6 (amended): split always designates at least one fan-out boundary, and
exactly one whenever no Join of the input has a merge-requiring node in its
subtree; a Join with merge-requiring inputs receives one boundary per
distributable input, as the recorded test plans show. -/
theorem c6_amended (cfg : Config) (p : PlanNode) (hI : inputOk p = true) :
    1 ≤ countFanOut (rewrite cfg p) ∧
      (noJoinMR cfg p = true → countFanOut (rewrite cfg p) = 1) :=
  ⟨countFanOut_pos cfg hI, fun hJ => countFanOut_eq_one cfg hI hJ⟩

/-- C6 witness: the amended theorem applied to Scenario B, whose merge-requiring
frontier is a single spine, giving exactly one boundary. -/
theorem c6_amended_witness :
    inputOk planScenarioB = true ∧ noJoinMR cfgStd planScenarioB = true ∧
      (1 ≤ countFanOut (rewrite cfgStd planScenarioB) ∧
        countFanOut (rewrite cfgStd planScenarioB) = 1) :=
  ⟨by decide, by decide,
    (c6_amended cfgStd planScenarioB (by decide)).1,
    (c6_amended cfgStd planScenarioB (by decide)).2 (by decide)⟩

/-- C7: a SetBuild whose inner subquery plan contains a distributable scan never
receives policy Once — it is forced to PerReplica — and every replica evaluates
the membership set from the single-node (full, unpartitioned) evaluation of the
inner plan. -/
theorem c7_policy (cfg : Config) (pol : SetPolicy) (c : Nat) (inner ch : PlanNode)
    (h : hasDistScan inner = true) :
    decide_set_policy cfg (.setBuild pol c inner ch) = .perReplica ∧
      decide_set_policy cfg (.setBuild pol c inner ch) ≠ .once ∧
      (∀ env part i,
        evalR env part i (.setBuild pol c inner ch) =
          (evalR env part i ch).filter (fun r =>
            ((evalS env inner).map (fun s => s.getD 0 0)).contains (r.getD c 0))) := by
  refine ⟨?_, ?_, ?_⟩
  · simp [decide_set_policy, h]
  · simp [decide_set_policy, h]
  · intro env part i
    rfl

/-- C7 witness: the policy theorem applied to a SetBuild over a distributable
inner scan. -/
theorem c7_witness :
    hasDistScan (.scan 2 true) = true ∧
      (decide_set_policy cfgStd (.setBuild .once 0 (.scan 2 true) (.scan 1 true)) =
          .perReplica ∧
        decide_set_policy cfgStd (.setBuild .once 0 (.scan 2 true) (.scan 1 true)) ≠
          .once) :=
  ⟨by decide,
    (c7_policy cfgStd .once 0 (.scan 2 true) (.scan 1 true) (by decide)).1,
    (c7_policy cfgStd .once 0 (.scan 2 true) (.scan 1 true) (by decide)).2.1⟩

/-- C8 counterexample: on a plan that is not distribution safe, denying
IN-subqueries changes the produced rows: the restricted configuration returns the
correct row while the unrestricted one loses it, so the two runs differ. -/
theorem c8_counterexample :
    validPart envThree partThree 2 ∧
      ¬ (evalC envThree partThree (rewrite cfgDeny planInJoin)).Perm
          (evalC envThree partThree (rewrite cfgStd planInJoin)) :=
  ⟨validPart_three, by decide⟩

/-- C8 (amended): when the configuration denies IN-subqueries under distributed
execution, every SetBuild is classified merge-requiring, no pushed replica
subplan contains a SetBuild (the cut is forced above it, the conflict is
recoverable and the query still plans), and on distribution-safe plans the
produced rows equal those of the unrestricted configuration. -/
theorem c8_amended (cfgA cfgD : Config) (env : Env) (part : PartAssign) (p : PlanNode)
    (hD : cfgD.allowInSubquery = false) (hI : inputOk p = true)
    (hSD : safeSplit cfgD p = true) (hSA : safeSplit cfgA p = true)
    (hR : cfgA.replicas = cfgD.replicas) (hV : validPart env part cfgD.replicas) :
    (∀ pol c inner ch, classify cfgD (.setBuild pol c inner ch) = true) ∧
      (∀ q ∈ pushedPlans (rewrite cfgD p), hasSetBuild q = false) ∧
      (evalC env part (rewrite cfgD p)).Perm (evalC env part (rewrite cfgA p)) := by
  refine ⟨?_, pushed_no_setBuild hD hI, ?_⟩
  · intro pol c inner ch
    simp [classify, hD]
  · have h1 := rewrite_perm cfgD env part hV hSD
    have h2 := rewrite_perm cfgA env part (by rw [hR]; exact hV) hSA
    exact h1.trans h2.symm

/-- C8 witness: the amended theorem applied to Scenario B under the denying and
the standard configuration. -/
theorem c8_amended_witness :
    cfgDeny.allowInSubquery = false ∧ inputOk planScenarioB = true ∧
      safeSplit cfgDeny planScenarioB = true ∧ safeSplit cfgStd planScenarioB = true ∧
      ((∀ pol c inner ch, classify cfgDeny (.setBuild pol c inner ch) = true) ∧
        (∀ q ∈ pushedPlans (rewrite cfgDeny planScenarioB), hasSetBuild q = false) ∧
        (evalC envTwoTables partCross (rewrite cfgDeny planScenarioB)).Perm
          (evalC envTwoTables partCross (rewrite cfgStd planScenarioB))) :=
  ⟨rfl, by decide, by decide, by decide,
    c8_amended cfgStd cfgDeny envTwoTables partCross planScenarioB rfl (by decide)
      (by decide) (by decide) rfl validPart_cross⟩

/-- C9: split is a pure function of the tree and the explicit configuration value
and is idempotent: repeated calls return equal and structurally identical
(coordinator plan with embedded replica subplans, cut reason) outputs. -/
theorem c9_deterministic (cfg : Config) (p : PlanNode) :
    split cfg p = split cfg p ∧
      planBEq (split cfg p).1 (split cfg p).1 = true ∧
      (split cfg p).2 = (split cfg p).2 :=
  ⟨rfl, planBEq_refl _, rfl⟩

/-- C10: the nine result sets recorded in the test reference file under
parallel_replicas_prefer_local_join = 0 are identical, block by block and row by
row, to the nine recorded under parallel_replicas_prefer_local_join = 1: toggling
the setting changes only the plan shape, never the produced rows or their order. -/
theorem c10_local_join_results : resultsLocalJoin0 = resultsLocalJoin1 := rfl
